import Mathlib

/-!
# clad: lib/Differentiator/VisitorBase.cpp

A shallow embedding of `VisitorBase::parseDiffArgs`,
`VisitorBase::CreateUniqueIdentifier`, `VisitorBase::BuildVarDecl`,
`UsefulToStore`, `VisitorBase::SplitArraySubscript`,
`VisitorBase::BuildArraySubscript`, `VisitorBase::GetSingleArgCentralDiffCall`
and `VisitorBase::GetMultiArgCentralDiffCall`, followed by the properties
proved about them. The definitions come first (with the one lemma that the
termination of two of them needs), the theorems after them.

Conventions of the embedding

* `llvm::StringRef` and `std::string` are lists of characters. The
  characters the code inspects (`,`, `[`, `]`, `:`, `_`, digits, blanks) are
  ASCII, so working on code points or on bytes is the same.
* `size_t` values are natural numbers; the value `npos` returned by a failed
  `find` is `none`.
* A declaration (`ValueDecl*`) is a record holding its address and its name;
  comparing pointers is comparing records.
* `diag(...)` appends to the list of diagnostics that the function returns
  together with its result.
* Services of the host compiler and of the derivative builder (the type of
  an expression, the overload resolver, the builder of subscript nodes) are
  arguments of the functions that use them.
-/

namespace clad

/-! ## llvm::StringRef -/

abbrev StringRef := List Char

/-- The default character set of `StringRef::trim`: `" \t\n\v\f\r"`. -/
def trimChars : List Char := [' ', '\t', '\n', Char.ofNat 11, Char.ofNat 12, '\r']

/-- `StringRef::ltrim()`. -/
def ltrim (s : StringRef) : StringRef := s.dropWhile (fun c => decide (c ∈ trimChars))

/-- `StringRef::rtrim()`. -/
def rtrim (s : StringRef) : StringRef :=
  (s.reverse.dropWhile (fun c => decide (c ∈ trimChars))).reverse

/-- `StringRef::trim()`, which is `ltrim().rtrim()`. -/
def trim (s : StringRef) : StringRef := rtrim (ltrim s)

/-- `StringRef::find(char)`: index of the first occurrence, `none` for `npos`. -/
def find : StringRef → Char → Option Nat
  | [], _ => none
  | x :: xs, c => if x = c then some 0 else (find xs c).map (· + 1)

/-- `StringRef::substr(Start, N)`. -/
def substr (s : StringRef) (start n : Nat) : StringRef :=
  (s.drop (min start s.length)).take n

/-- `StringRef::slice(Start, End)`, with `End = none` standing for `npos`:
`Start = min(Start, Length); End = min(max(Start, End), Length)`. -/
def slice (s : StringRef) (start : Nat) (stop : Option Nat) : StringRef :=
  let st := min start s.length
  let en := match stop with
    | none => s.length
    | some e => min (max st e) s.length
  (s.drop st).take (en - st)

/-- `StringRef::split(char)`: the text before and after the first separator;
the whole string and the empty string when there is none. -/
def split (s : StringRef) (sep : Char) : StringRef × StringRef :=
  match find s sep with
  | none => (s, [])
  | some idx => (slice s 0 (some idx), slice s (idx + 1) none)

/-- `StringRef::startswith`. -/
def startswith (s pre : StringRef) : Bool := pre.isPrefixOf s

/-- One step of `consumeUnsignedInteger` in radix 10: a character that is not
a decimal digit, or a value that leaves 64 bits, is a failure. -/
def digitStep (acc : Nat) (c : Char) : Option Nat :=
  if '0' ≤ c ∧ c ≤ '9' then
    let r := acc * 10 + (c.toNat - '0'.toNat)
    if r < 2 ^ 64 then some r else none
  else none

/-- `StringRef::getAsInteger(10, size_t&)`: `some v` when the whole string is
a decimal numeral of value `v < 2^64`; `none` when the call reports failure
(and leaves its output argument untouched). -/
def getAsInteger (s : StringRef) : Option Nat :=
  if s = [] then none else s.foldlM digitStep 0

/-! ## std::to_string -/

/-- Decimal digits of `n`, most significant first. -/
def decDigits : Nat → Nat → List Char
  | 0, _ => []
  | fuel + 1, n =>
    if n < 10 then [Char.ofNat ('0'.toNat + n)]
    else decDigits fuel (n / 10) ++ [Char.ofNat ('0'.toNat + n % 10)]

/-- `std::to_string` of an unsigned value. -/
def to_string (n : Nat) : StringRef := decDigits (n + 1) n

/-- `std::to_string` of a signed value. -/
def to_string_int (i : Int) : StringRef :=
  if i < 0 then '-' :: to_string i.natAbs else to_string i.natAbs

/-! ## Declarations, diagnostics, results -/

/-- A `ValueDecl` (a `ParmVarDecl` or a `FieldDecl`): `addr` is the identity
of the declaration, `getName` its name. -/
structure ValueDecl where
  addr : Nat
  getName : StringRef
  deriving DecidableEq, Repr

/-- A `FunctionDecl`, reduced to its parameter declarations. -/
structure FunctionDecl where
  parameters : List ValueDecl
  deriving DecidableEq, Repr

/-- A `CXXRecordDecl` (the type of `m_Functor`), reduced to its fields. -/
structure CXXRecordDecl where
  fields : List ValueDecl
  deriving DecidableEq, Repr

/-- Severity of a diagnostic (`DiagnosticsEngine::Level`). -/
inductive Level
  | Ignored | Note | Remark | Warning | Error | Fatal
  deriving DecidableEq, Repr

/-- One call of `diag(level, loc, format, args)`. -/
structure Diagnostic where
  level : Level
  loc : Nat
  format : String
  args : List StringRef
  deriving DecidableEq, Repr

/-- Modelled from the spec: the type `IndexInterval` is declared in a header
that is not part of the sources at hand. The three ways the code builds one
are kept apart: `IndexInterval()` for a whole variable, `IndexInterval(index)`
for a single element and `IndexInterval(first, last)` for a half-open range. -/
inductive IndexInterval
  | whole
  | index (i : Nat)
  | range (first last : Nat)
  deriving DecidableEq, Repr

abbrev DiffParams := List ValueDecl

abbrev IndexIntervalTable := List IndexInterval

abbrev DiffParamsWithIndices := DiffParams × IndexIntervalTable

/-- The expression `diffArgs` as the function observes it: its end location,
and for `E = diffArgs->IgnoreParenImpCasts()` the outcome of
`dyn_cast<StringLiteral>(E)` (with `getString()`), of
`Expr_EvaluateAsInt(E, intValue)` (with `intValue.getExtValue()`), and of
`isa<CXXDefaultArgExpr>(E)`. -/
structure DiffArgsExpr where
  endLoc : Nat
  stringLiteral : Option StringRef
  evaluateAsInt : Option Int
  isCXXDefaultArgExpr : Bool
  deriving DecidableEq, Repr

/-- A string literal with text `s`. -/
def DiffArgsExpr.ofString (loc : Nat) (s : StringRef) : DiffArgsExpr :=
  ⟨loc, some s, none, false⟩

/-- An expression that is not a string literal and evaluates to the integer `i`. -/
def DiffArgsExpr.ofInt (loc : Nat) (i : Int) : DiffArgsExpr :=
  ⟨loc, none, some i, false⟩

/-- The defaulted argument: neither a string literal nor an integer. -/
def DiffArgsExpr.unspecified (loc : Nat) : DiffArgsExpr :=
  ⟨loc, none, none, true⟩

/-! ## VisitorBase::parseDiffArgs -/

/-- The loop `do { tie(name, string) = string.split(','); names.push_back(name.trim()); }
while (!string.empty());`. The remainder gets shorter on every round, so
`string.length + 1` rounds are always enough (`splitNamesLoop_fuel`). -/
def splitNamesLoop : Nat → StringRef → List StringRef
  | 0, _ => []
  | fuel + 1, string =>
    let p := split string ','
    trim p.1 :: (if p.2 = [] then [] else splitNamesLoop fuel p.2)

/-- The list `names` of lines 53-58. -/
def splitNames (string : StringRef) : List StringRef :=
  splitNamesLoop (string.length + 1) string

/-- The list `candidates` of lines 66-77: the fields of the functor when the
function has no parameter and a functor is set, the parameters otherwise. -/
def candidates (FD : FunctionDecl) (m_Functor : Option CXXRecordDecl) :
    List (StringRef × ValueDecl) :=
  match FD.parameters, m_Functor with
  | [], some functor => functor.fields.map (fun d => (d.getName, d))
  | ps, _ => ps.map (fun d => (d.getName, d))

/-- The position `loc` of line 80-81: that of the first `[`, or the length. -/
def bracketPos (name : StringRef) : Nat := (find name '[').getD name.length

/-- The text `base` of line 82. -/
def baseOf (name : StringRef) : StringRef := substr name 0 (bracketPos name)

/-- The `std::find_if` of lines 84-89. -/
def findCandidate (cands : List (StringRef × ValueDecl)) (base : StringRef) :
    Option (StringRef × ValueDecl) :=
  cands.find? (fun p => decide (p.1 = base))

/-- Body of the loop over `names` (lines 80-139) for one name. `junk` holds
the values found in the uninitialised variables `index`/`first` and `last`
when `getAsInteger` fails and leaves them untouched. An early `return {}`
after `diag` is `Except.error` with that diagnostic. -/
def processName (cands : List (StringRef × ValueDecl)) (endLoc : Nat) (junk : Nat × Nat)
    (params : DiffParams) (indexes : IndexIntervalTable) (name : StringRef) :
    Except Diagnostic DiffParamsWithIndices :=
  let loc := bracketPos name
  let base := substr name 0 loc
  match findCandidate cands base with
  | none =>
    .error ⟨Level.Error, endLoc,
      "Requested parameter name '%0' was not found among function parameters", [base]⟩
  | some it =>
    if it.2 ∈ params then
      .error ⟨Level.Error, endLoc,
        "Requested parameter '%0' was specified multiple times", [it.2.getName]⟩
    else
      let params := params ++ [it.2]
      if loc ≠ name.length then
        let interval := slice name (loc + 1) (find name ']')
        let p := split interval ':'
        let firstStr := p.1
        let lastStr := p.2
        if lastStr = [] then
          let index := (getAsInteger firstStr).getD junk.1
          .ok (params, indexes ++ [IndexInterval.index index])
        else
          let first := (getAsInteger firstStr).getD junk.1
          let last := (getAsInteger lastStr).getD junk.2
          if first ≥ last then
            .error ⟨Level.Error, endLoc,
              "Range specified in '%0' is in incorrect format", [name]⟩
          else
            .ok (params, indexes ++ [IndexInterval.range first last])
      else
        .ok (params, indexes ++ [IndexInterval.whole])

/-- The loop `for (const auto& name : names)` of lines 79-140; `i` is the
position of the name at the head of the list, `indet i` the junk of that
round. -/
def processNames (cands : List (StringRef × ValueDecl)) (endLoc : Nat)
    (indet : Nat → Nat × Nat) :
    Nat → List StringRef → DiffParams → IndexIntervalTable →
      Except Diagnostic DiffParamsWithIndices
  | _, [], params, indexes => .ok (params, indexes)
  | i, name :: rest, params, indexes =>
    match processName cands endLoc (indet i) params indexes name with
    | .error d => .error d
    | .ok r => processNames cands endLoc indet (i + 1) rest r.1 r.2

/-- `VisitorBase::parseDiffArgs(diffArgs, FD)` with the member `m_Functor`
and the indeterminate values `indet` as further inputs. The result is the
returned pair and the diagnostics emitted. `idx` is a signed 64-bit value
and the counts are unsigned; the comparison `idx >= count` is only reached
for `idx >= 0`, where the conversion changes nothing. -/
def parseDiffArgs (diffArgs : DiffArgsExpr) (FD : FunctionDecl)
    (m_Functor : Option CXXRecordDecl) (indet : Nat → Nat × Nat) :
    DiffParamsWithIndices × List Diagnostic :=
  -- Case 1)
  match diffArgs.stringLiteral with
  | some str =>
    let string := trim str
    if string = [] then
      (([], []), [⟨Level.Error, diffArgs.endLoc, "No parameters were provided", []⟩])
    else
      let names := splitNames string
      match processNames (candidates FD m_Functor) diffArgs.endLoc indet 0 names [] [] with
      | .error d => (([], []), [d])
      | .ok r => (r, [])
  | none =>
    -- Case 2)
    match diffArgs.evaluateAsInt with
    | some idx =>
      match FD.parameters, m_Functor with
      | [], some functor =>
        let totalFields := functor.fields.length
        if h : idx < 0 ∨ idx ≥ totalFields then
          (([], []), [⟨Level.Error, diffArgs.endLoc,
            "Invalid member variable index '%0' of '%1' member variable(s)",
            [to_string_int idx, to_string totalFields]⟩])
        else
          (([functor.fields.get ⟨idx.toNat, by omega⟩], []), [])
      | ps, _ =>
        if h : idx < 0 ∨ idx ≥ ps.length then
          (([], []), [⟨Level.Error, diffArgs.endLoc,
            "Invalid argument index '%0' of '%1' argument(s)",
            [to_string_int idx, to_string ps.length]⟩])
        else
          (([ps.get ⟨idx.toNat, by omega⟩], []), [])
    | none =>
      -- Case 3)
      if diffArgs.isCXXDefaultArgExpr then
        let params := FD.parameters
        if params = [] then
          ((params, []), [⟨Level.Error, diffArgs.endLoc,
            "Attempted to differentiate a function without parameters", []⟩])
        else
          ((params, []), [])
      else
        (([], []), [⟨Level.Error, diffArgs.endLoc,
          "Failed to parse the parameters, must be a string or numeric literal", []⟩])

/-- The token `name[first:last]`. -/
def rangeToken (name first last : StringRef) : StringRef :=
  name ++ '[' :: (first ++ ':' :: (last ++ [']']))

/-- Following the words of the specification ("split on commas"): the pieces
of a text between its commas, an empty piece for a leading, doubled or
trailing comma included. -/
def commaTokens : StringRef → List StringRef
  | [] => [[]]
  | c :: cs =>
    if c = ',' then [] :: commaTokens cs
    else match commaTokens cs with
      | [] => [[c]]
      | t :: ts => (c :: t) :: ts

/-- Following the words of the specification ("split on commas, trim
whitespace on each token"). -/
def specTokens (s : StringRef) : List StringRef := (commaTokens s).map trim

/-! ## VisitorBase::CreateUniqueIdentifier -/

/-- The member `m_idCtr`, a map from `std::string` to `std::size_t`; a key
that is absent reads as `0`, the value `operator[]` creates it with. -/
abbrev IdCtr := StringRef → Nat

/-- The test `countedName` of lines 342-344. -/
def countedName (nameBase : StringRef) : Bool :=
  startswith nameBase ['_'] && !startswith nameBase ['_', 'd', '_'] &&
    !startswith nameBase ['_', 'd', 'e', 'l', 't', 'a', '_']

/-- The loop `for (;;)` of lines 350-361. `visible` lists the names for which
`LookupName` in `m_CurScope` finds a binding, `idStr` and `id` are the
variables of the same names (`id` is a `size_t`, so `id += 1` wraps at
`2^64`). `none` is returned when the rounds allowed by the first argument are
used up before the loop returned. -/
def uniqueLoop (visible : List StringRef) (nameBase : StringRef) :
    Nat → StringRef → Nat → Option (StringRef × Nat)
  | 0, _, _ => none
  | fuel + 1, idStr, id =>
    let name := nameBase ++ idStr
    if name ∉ visible then some (name, id)
    else uniqueLoop visible nameBase fuel (to_string id) ((id + 1) % 2 ^ 64)

/-- `VisitorBase::CreateUniqueIdentifier(nameBase)`: the identifier returned
and the value of `m_idCtr` afterwards. `id` refers to the entry of `nameBase`
in `m_idCtr` for a counted name and to the local `idx` otherwise, so the map
changes for counted names only. -/
def CreateUniqueIdentifier (fuel : Nat) (visible : List StringRef) (m_idCtr : IdCtr)
    (nameBase : StringRef) : Option (StringRef × IdCtr) :=
  let counted := countedName nameBase
  let idx := 0
  let id := if counted then m_idCtr nameBase else idx
  let idStr := if counted then to_string id else []
  let id := if counted then (id + 1) % 2 ^ 64 else id
  match uniqueLoop visible nameBase fuel idStr id with
  | none => none
  | some r => some (r.1, if counted then Function.update m_idCtr nameBase r.2 else m_idCtr)

/-! ## Auxiliary definitions -/

/-- Value of a decimal numeral. -/
def digitsVal (s : StringRef) : Nat :=
  s.foldl (fun acc c => acc * 10 + (c.toNat - '0'.toNat)) 0

/-- The text `idStr` at the start of round `j` of the loop of
`CreateUniqueIdentifier` entered with `idStr` and `id`. -/
def tryStr (idStr : StringRef) (id : Nat) : Nat → StringRef
  | 0 => idStr
  | j + 1 => to_string ((id + j) % 2 ^ 64)

/-- The declaration a name selects: the one of the first candidate whose name
is the base of `name`. -/
def declOf (cands : List (StringRef × ValueDecl)) (name : StringRef) : Option ValueDecl :=
  (findCandidate cands (baseOf name)).map Prod.snd

/-- The tokens the loop of lines 55-58 produces: those of the text between
the commas, without the empty one that follows a trailing comma. -/
def loopTokens (t : StringRef) : List StringRef :=
  if t.getLast? = some ',' then (commaTokens t).dropLast else commaTokens t

/-! ## Declarations used in the examples -/

/-- The parameter `x` of `f(double x, double y)`. -/
def paramX : ValueDecl := ⟨1, ['x']⟩

/-- The parameter `y` of `f(double x, double y)`. -/
def paramY : ValueDecl := ⟨2, ['y']⟩

/-- First field of a functor with three fields. -/
def fieldA : ValueDecl := ⟨11, ['a']⟩

/-- Second field of a functor with three fields. -/
def fieldB : ValueDecl := ⟨12, ['b']⟩

/-- Third field of a functor with three fields. -/
def fieldC : ValueDecl := ⟨13, ['c']⟩

/-- Uninitialised variables that all hold zero. -/
def zeroJunk : Nat → Nat × Nat := fun _ => (0, 0)

/-! ## Expressions -/

/-- The unary operators of clang (`UnaryOperatorKind`). -/
inductive UnaryOperatorKind
  | UO_PostInc | UO_PostDec | UO_PreInc | UO_PreDec | UO_AddrOf | UO_Deref
  | UO_Plus | UO_Minus | UO_Not | UO_LNot | UO_Real | UO_Imag | UO_Extension | UO_Coawait
  deriving DecidableEq, Repr

/-- The expression nodes of clang that the code tells apart or builds. A
declaration is referred to by its name, a floating literal is kept as its
text, a binary operator by its spelling. -/
inductive Expr
  | DeclRefExpr (name : StringRef)
  | IntegerLiteral (value : Int)
  | FloatingLiteral (text : StringRef)
  | CXXBoolLiteralExpr (value : Bool)
  | CharacterLiteral (value : Nat)
  | StringLiteral (text : StringRef)
  | ParenExpr (sub : Expr)
  | ImplicitCastExpr (sub : Expr)
  | UnaryOperator (op : UnaryOperatorKind) (sub : Expr)
  | BinaryOperator (op : StringRef) (lhs rhs : Expr)
  | ConditionalOperator (cond lhs rhs : Expr)
  | ArraySubscriptExpr (base idx : Expr)
  | CallExpr (callee : Expr) (args : List Expr)
  | InitListExpr (inits : List Expr)

/-- `Expr::IgnoreParenImpCasts()` of the host compiler: the expression below
the parentheses, the implicit conversions and the `__extension__` markers (a
`UnaryOperator` with `UO_Extension`, which `IgnoreParens` looks through) that
surround it. -/
def IgnoreParenImpCasts : Expr → Expr
  | .ParenExpr sub => IgnoreParenImpCasts sub
  | .ImplicitCastExpr sub => IgnoreParenImpCasts sub
  | .UnaryOperator .UO_Extension sub => IgnoreParenImpCasts sub
  | e => e

/-- Stripping does not enlarge an expression; the recursions of
`UsefulToStore` and of `SplitArraySubscript` end for this reason. -/
theorem sizeOf_IgnoreParenImpCasts_le : ∀ e : Expr, sizeOf (IgnoreParenImpCasts e) ≤ sizeOf e
  | .ParenExpr sub => by
    have := sizeOf_IgnoreParenImpCasts_le sub
    simp only [IgnoreParenImpCasts, Expr.ParenExpr.sizeOf_spec]
    omega
  | .ImplicitCastExpr sub => by
    have := sizeOf_IgnoreParenImpCasts_le sub
    simp only [IgnoreParenImpCasts, Expr.ImplicitCastExpr.sizeOf_spec]
    omega
  | .UnaryOperator op sub => by
    have := sizeOf_IgnoreParenImpCasts_le sub
    cases op
    case UO_Extension =>
      simp only [IgnoreParenImpCasts, Expr.UnaryOperator.sizeOf_spec]
      omega
    all_goals simp [IgnoreParenImpCasts]
  | .DeclRefExpr _ | .IntegerLiteral _ | .FloatingLiteral _ | .CXXBoolLiteralExpr _
  | .CharacterLiteral _ | .StringLiteral _ | .BinaryOperator _ _ _
  | .ConditionalOperator _ _ _ | .ArraySubscriptExpr _ _ | .CallExpr _ _ | .InitListExpr _ => by
    simp [IgnoreParenImpCasts]

/-! ## UsefulToStore -/

set_option linter.unusedVariables false in
/-- The static function `UsefulToStore(Expr* E)` of lines 397-417; `none` is
the null pointer. -/
def UsefulToStore : Option Expr → Bool
  | none => false
  | some E =>
    match h : IgnoreParenImpCasts E with
    | .DeclRefExpr _ => false
    | .FloatingLiteral _ => false
    | .IntegerLiteral _ => false
    | .UnaryOperator OpKind sub =>
      if OpKind = .UO_Plus ∨ OpKind = .UO_Minus then UsefulToStore (some sub) else false
    | .ArraySubscriptExpr base idx => UsefulToStore (some base) || UsefulToStore (some idx)
    | _ => true
termination_by E => sizeOf E
decreasing_by
  all_goals simp_wf
  all_goals
    have := sizeOf_IgnoreParenImpCasts_le E
    rw [h] at this
    simp at this
    omega

/-- One layer that `UsefulToStore` looks through: a unary plus, a unary minus,
a pair of parentheses, an implicit conversion or an `__extension__` marker. -/
inductive Wrapper
  | plus | minus | paren | implicitCast | extension
  deriving DecidableEq, Repr

/-- The expression `x` inside the layers `ws`, the first of the list
outermost. -/
def wrap : List Wrapper → Expr → Expr
  | [], x => x
  | .plus :: ws, x => .UnaryOperator .UO_Plus (wrap ws x)
  | .minus :: ws, x => .UnaryOperator .UO_Minus (wrap ws x)
  | .paren :: ws, x => .ParenExpr (wrap ws x)
  | .implicitCast :: ws, x => .ImplicitCastExpr (wrap ws x)
  | .extension :: ws, x => .UnaryOperator .UO_Extension (wrap ws x)

/-! ## VisitorBase::SplitArraySubscript and VisitorBase::BuildArraySubscript -/

/-- The loop `while (auto S = dyn_cast<ArraySubscriptExpr>(E))` of lines
475-478, on the current `E` and `Indices`. -/
def splitLoop (E : Expr) (Indices : List Expr) : Expr × List Expr :=
  match E with
  | .ArraySubscriptExpr base idx => splitLoop (IgnoreParenImpCasts base) (Indices ++ [idx])
  | e => (e, Indices)
termination_by sizeOf E
decreasing_by
  simp_wf
  have := sizeOf_IgnoreParenImpCasts_le base
  omega

/-- `VisitorBase::SplitArraySubscript(ASE)` of lines 471-481. -/
def SplitArraySubscript (ASE : Expr) : Expr × List Expr :=
  let r := splitLoop (IgnoreParenImpCasts ASE) []
  (r.1, r.2.reverse)

/-- `Sema::DefaultFunctionArrayLvalueConversion(E)` of the host compiler: an
operand to which a default conversion applies (an lvalue is loaded, an array
or a function decays to a pointer) is put under an implicit conversion, any
other operand is left as it is. `converts` tells the two kinds apart; it
stands for the value category and the type of the expression, which the
expressions here do not carry. -/
def DefaultFunctionArrayLvalueConversion (converts : Expr → Bool) (E : Expr) : Expr :=
  if converts E then .ImplicitCastExpr E else E

/-- `Sema::CreateBuiltinArraySubscriptExpr(Base, LLoc, Idx, RLoc)` of the
host compiler, for a base of array or pointer type and an index of integer
type: both operands get the default conversion, and the node is made of the
converted operands. -/
def CreateBuiltinArraySubscriptExpr (converts : Expr → Bool) (Base Idx : Expr) : Expr :=
  .ArraySubscriptExpr (DefaultFunctionArrayLvalueConversion converts Base)
    (DefaultFunctionArrayLvalueConversion converts Idx)

/-- `VisitorBase::BuildArraySubscript(Base, Indices)` of lines 483-490. -/
def BuildArraySubscript (converts : Expr → Bool) (Base : Expr) (Indices : List Expr) : Expr :=
  Indices.foldl (fun result I => CreateBuiltinArraySubscriptExpr converts result I) Base

/-- The conversions of a program whose variables are lvalues: a reference to
a declaration is converted, a literal, a converted expression or a call is
not. -/
def variablesConvert : Expr → Bool
  | .DeclRefExpr _ => true
  | _ => false

/-! ## Types, declarations, statements -/

/-- A type as the code uses it: a type of the program, known by its spelling
and by the answers of `isArithmeticType()` and `isScalarType()`, or the
instance `clad::ClassName<TemplateArgs>` of a class template of the `clad`
namespace that `GetCladClassOfType` (lines 524-545) builds. -/
inductive QualType
  | program (spelling : StringRef) (arithmetic scalar : Bool)
  | cladClass (ClassName : StringRef) (TemplateArgs : List QualType)

/-- `Type::isArithmeticType()`; a class type is not arithmetic. -/
def QualType.isArithmeticType : QualType → Bool
  | .program _ arithmetic _ => arithmetic
  | .cladClass _ _ => false

/-- `Type::isScalarType()`; a class type is not scalar. -/
def QualType.isScalarType : QualType → Bool
  | .program _ _ scalar => scalar
  | .cladClass _ _ => false

/-- `VisitorBase::GetCladClassOfType(CladClassDecl, TemplateArgs)` of lines
524-545, with the template named by its class name. -/
def GetCladClassOfType (ClassName : StringRef) (TemplateArgs : List QualType) : QualType :=
  .cladClass ClassName TemplateArgs

/-- `VisitorBase::GetCladTapeOfType(T)` of lines 590-592. -/
def GetCladTapeOfType (T : QualType) : QualType :=
  GetCladClassOfType ['t', 'a', 'p', 'e'] [T]

/-- `VisitorBase::GetCladArrayRefOfType(T)` of lines 687-689. -/
def GetCladArrayRefOfType (T : QualType) : QualType :=
  GetCladClassOfType ['a', 'r', 'r', 'a', 'y', '_', 'r', 'e', 'f'] [T]

/-- A `VarDecl`: its identifier, its type and its initializer, if any. -/
structure VarDecl where
  Identifier : StringRef
  Ty : QualType
  Init : Option Expr

/-- A statement of a block: a declaration statement or an expression. -/
inductive Stmt
  | DeclStmt (D : VarDecl)
  | ofExpr (E : Expr)

/-! ## VisitorBase::BuildVarDecl -/

/-- `Sema::PushOnScopeChains(VD, getCurrentScope())`: the identifier becomes
visible to the lookups that follow. -/
def PushOnScopeChains (visible : List StringRef) (Identifier : StringRef) : List StringRef :=
  Identifier :: visible

/-- `VisitorBase::BuildVarDecl(Type, Identifier, Init, ...)` of lines 220-237:
the declaration built and the names visible afterwards. -/
def BuildVarDecl (visible : List StringRef) (Ty : QualType) (Identifier : StringRef)
    (Init : Option Expr) : VarDecl × List StringRef :=
  (⟨Identifier, Ty, Init⟩, PushOnScopeChains visible Identifier)

/-- `VisitorBase::BuildVarDecl(Type, prefix, Init, ...)` of lines 239-245, which
is `BuildVarDecl(Type, CreateUniqueIdentifier(prefix), Init, ...)`: the
declaration built, the names visible afterwards and `m_idCtr` afterwards. -/
def BuildVarDeclUnique (fuel : Nat) (visible : List StringRef) (m_idCtr : IdCtr)
    (Ty : QualType) (nameBase : StringRef) (Init : Option Expr) :
    Option (VarDecl × List StringRef × IdCtr) :=
  match CreateUniqueIdentifier fuel visible m_idCtr nameBase with
  | none => none
  | some r =>
    let b := BuildVarDecl visible Ty r.1 Init
    some (b.1, b.2, r.2)

/-! ## The numerical fallback -/

/-- Modelled from the spec: `ConstantFolder::synthesizeLiteral(IntTy, Context, value)`
belongs to a file that is not part of the sources at hand; it "produces a
literal expression node for a given scalar value and type", here the integer
literal of that value. -/
def synthesizeLiteral (value : Int) : Expr := .IntegerLiteral value

/-- `VisitorBase::getZeroInit(T)` of lines 464-469: the literal `0` for a scalar
type, the empty initializer list otherwise. -/
def getZeroInit (T : QualType) : Expr :=
  if T.isScalarType then synthesizeLiteral 0 else .InitListExpr []

/-- `VisitorBase::BuildDeclRef(D)` of lines 330-335. -/
def BuildDeclRef (D : VarDecl) : Expr := .DeclRefExpr D.Identifier

/-- One call of `m_Builder.findOverloadedDefinition(DNInfo, CallArgs, ...)`:
the name looked for and the arguments. -/
abbrev OverloadQuery := StringRef × List Expr

/-- The name `forward_central_difference`. -/
def forwardCentralDifferenceName : StringRef :=
  ['f', 'o', 'r', 'w', 'a', 'r', 'd', '_', 'c', 'e', 'n', 't', 'r', 'a', 'l', '_',
    'd', 'i', 'f', 'f', 'e', 'r', 'e', 'n', 'c', 'e']

/-- The name `central_difference`. -/
def centralDifferenceName : StringRef :=
  ['c', 'e', 'n', 't', 'r', 'a', 'l', '_', 'd', 'i', 'f', 'f', 'e', 'r', 'e', 'n', 'c', 'e']

/-- `VisitorBase::GetSingleArgCentralDiffCall` of lines 717-743. Inputs from
outside the function: `getType` (the type of an expression),
`shouldPrintNumDiffErrs` (the setting `m_Builder.shouldPrintNumDiffErrs()`) and
`findOverloadedDefinition` (the overload resolver of `m_Builder`). The result
is the expression returned (`none` for the null pointer) and the queries put
to the resolver. `args.begin() + numArgs` requires `numArgs <= args.size()`. -/
def GetSingleArgCentralDiffCall (getType : Expr → QualType) (shouldPrintNumDiffErrs : Bool)
    (findOverloadedDefinition : OverloadQuery → Option Expr)
    (targetFuncCall targetArg : Expr) (targetPos numArgs : Nat) (args : List Expr) :
    Option Expr × List OverloadQuery :=
  let argType := getType targetArg
  let printErrorInf : Int := if shouldPrintNumDiffErrs then 1 else 0
  let isSupported := argType.isArithmeticType
  if !isSupported then (none, [])
  else
    let NumDiffArgs := [targetFuncCall, targetArg, synthesizeLiteral targetPos,
      synthesizeLiteral printErrorInf] ++ args.take numArgs
    (findOverloadedDefinition (forwardCentralDifferenceName, NumDiffArgs),
      [(forwardCentralDifferenceName, NumDiffArgs)])

/-- The reference to `clad::push` that `BuildDeclarationNameExpr` builds from
the lookup result of `GetCladTapePush()`. -/
def PushDRE : Expr := .DeclRefExpr ['c', 'l', 'a', 'd', ':', ':', 'p', 'u', 's', 'h']

/-- The loop of lines 776-784, with `n` rounds left and `i` the loop variable:
the statement list and `NumDiffArgs` after the loop, or `none` when
`outputArgs[i]` or `args[i]` reads past the end of its vector. -/
def pushLoop (TapeRef : Expr) (args outputArgs : List Expr) :
    Nat → Nat → List Stmt → List Expr → Option (List Stmt × List Expr)
  | 0, _, NumericalDiffMultiArg, NumDiffArgs => some (NumericalDiffMultiArg, NumDiffArgs)
  | n + 1, i, NumericalDiffMultiArg, NumDiffArgs =>
    match outputArgs[i]?, args[i]? with
    | some out, some arg =>
      let PushExpr := Expr.CallExpr PushDRE [TapeRef, out]
      pushLoop TapeRef args outputArgs n (i + 1) (NumericalDiffMultiArg ++ [Stmt.ofExpr PushExpr])
        (NumDiffArgs ++ [arg])
    | _, _ => none

/-- What `GetMultiArgCentralDiffCall` leaves behind: the expression returned,
the statement list `NumericalDiffMultiArg`, the names visible, `m_idCtr` and
the queries put to the overload resolver. -/
structure MultiArgResult where
  call : Option Expr
  NumericalDiffMultiArg : List Stmt
  visible : List StringRef
  m_idCtr : IdCtr
  queries : List OverloadQuery

/-- `VisitorBase::GetMultiArgCentralDiffCall` of lines 745-789. Inputs from
outside the function, besides those of `GetSingleArgCentralDiffCall`:
`defaultBase`, the default value of the argument `prefix` of `BuildVarDecl`
(declared in the header), and the state `visible`, `m_idCtr` that
`BuildVarDecl` works on. The statement list holds a pointer to the tape
declaration, so the initializer added in line 769 shows in the statement
appended in line 760. `none`: `CreateUniqueIdentifier` was not allowed enough
rounds, or a vector was read past its end. -/
def GetMultiArgCentralDiffCall (fuel : Nat) (defaultBase : StringRef)
    (shouldPrintNumDiffErrs : Bool) (findOverloadedDefinition : OverloadQuery → Option Expr)
    (visible : List StringRef) (m_idCtr : IdCtr)
    (targetFuncCall : Expr) (retType : QualType) (numArgs : Nat)
    (NumericalDiffMultiArg : List Stmt) (args outputArgs : List Expr) :
    Option MultiArgResult :=
  let printErrorInf : Int := if shouldPrintNumDiffErrs then 1 else 0
  let NumDiffArgs := [targetFuncCall]
  let RefType := GetCladArrayRefOfType retType
  let TapeType := GetCladTapeOfType RefType
  match BuildVarDeclUnique fuel visible m_idCtr TapeType defaultBase none with
  | none => none
  | some b =>
    let VD : VarDecl := ⟨b.1.Identifier, b.1.Ty, some (getZeroInit TapeType)⟩
    let NumericalDiffMultiArg := NumericalDiffMultiArg ++ [Stmt.DeclStmt VD]
    let TapeRef := BuildDeclRef VD
    let NumDiffArgs := NumDiffArgs ++ [TapeRef]
    let NumDiffArgs := NumDiffArgs ++ [synthesizeLiteral printErrorInf]
    match pushLoop TapeRef args outputArgs numArgs 0 NumericalDiffMultiArg NumDiffArgs with
    | none => none
    | some l =>
      some ⟨findOverloadedDefinition (centralDifferenceName, l.2), l.1, b.2.1, b.2.2,
        [(centralDifferenceName, l.2)]⟩

/-! ## Auxiliary facts about the loop over the names -/

theorem processName_ok {cands : List (StringRef × ValueDecl)} {endLoc : Nat} {junk : Nat × Nat}
    {params : DiffParams} {indexes : IndexIntervalTable} {name : StringRef}
    {r : DiffParamsWithIndices}
    (h : processName cands endLoc junk params indexes name = .ok r) :
    ∃ it iv, findCandidate cands (baseOf name) = some it ∧ it.2 ∉ params ∧
      r = (params ++ [it.2], indexes ++ [iv]) ∧
      processName cands endLoc junk [] [] name = .ok ([it.2], [iv]) := by
  unfold processName at h ⊢
  simp only [baseOf]
  cases hf : findCandidate cands (substr name 0 (bracketPos name)) with
  | none => simp [hf] at h
  | some it =>
    simp only [hf] at h ⊢
    by_cases hmem : it.2 ∈ params
    · simp [hmem] at h
    · simp only [hmem, if_false, List.not_mem_nil, List.nil_append] at h ⊢
      by_cases hloc : bracketPos name ≠ name.length
      · rw [if_pos hloc] at h ⊢
        by_cases hlast : (split (slice name (bracketPos name + 1) (find name ']')) ':').2 = []
        · rw [if_pos hlast] at h ⊢
          exact ⟨it, _, rfl, hmem, (Except.ok.inj h).symm, rfl⟩
        · rw [if_neg hlast] at h ⊢
          split at h
          · cases h
          · rename_i hge
            rw [if_neg hge]
            exact ⟨it, _, rfl, hmem, (Except.ok.inj h).symm, rfl⟩
      · rw [if_neg hloc] at h ⊢
        exact ⟨it, _, rfl, hmem, (Except.ok.inj h).symm, rfl⟩

theorem processNames_ok (cands : List (StringRef × ValueDecl)) (endLoc : Nat)
    (indet : Nat → Nat × Nat) :
    ∀ (names : List StringRef) (i : Nat) (params : DiffParams) (indexes : IndexIntervalTable)
      (r : DiffParamsWithIndices),
      processNames cands endLoc indet i names params indexes = .ok r →
      ∃ ps ixs, r = (params ++ ps, indexes ++ ixs) ∧
        ps.length = names.length ∧ ixs.length = names.length ∧
        ps.map some = names.map (declOf cands) ∧
        (params.Nodup → (params ++ ps).Nodup) ∧
        ∀ k name, names[k]? = some name →
          ∃ it iv, findCandidate cands (baseOf name) = some it ∧
            processName cands endLoc (indet (i + k)) [] [] name = .ok ([it.2], [iv]) ∧
            ps[k]? = some it.2 ∧ ixs[k]? = some iv := by
  intro names
  induction names with
  | nil =>
    intro i params indexes r h
    simp only [processNames] at h
    refine ⟨[], [], ?_, rfl, rfl, rfl, ?_, ?_⟩
    · simpa using (Except.ok.inj h).symm
    · simp
    · intro k name hk
      simp at hk
  | cons name rest ih =>
    intro i params indexes r h
    simp only [processNames] at h
    cases h1 : processName cands endLoc (indet i) params indexes name with
    | error d => simp [h1] at h
    | ok r1 =>
      simp only [h1] at h
      obtain ⟨it, iv, hfind, hnew, hr1, hfresh⟩ := processName_ok h1
      obtain ⟨ps, ixs, hr, hlp, hli, hmap, hnd, hget⟩ := ih (i + 1) r1.1 r1.2 r h
      subst hr1
      refine ⟨it.2 :: ps, iv :: ixs, ?_, by simp [hlp], by simp [hli], ?_, ?_, ?_⟩
      · simpa using hr
      · simp [hmap, declOf, hfind]
      · intro hp
        have h2 : (params ++ [it.2]).Nodup := by
          rw [List.nodup_append]
          refine ⟨hp, List.nodup_singleton _, ?_⟩
          intro a ha hb
          simp only [List.mem_singleton] at hb
          subst hb
          exact hnew ha
        simpa using hnd h2
      · intro k nm hk
        cases k with
        | zero =>
          simp only [List.getElem?_cons_zero, Option.some.injEq] at hk
          subst hk
          exact ⟨it, iv, hfind, by simpa using hfresh, by simp, by simp⟩
        | succ k =>
          simp only [List.getElem?_cons_succ] at hk
          obtain ⟨it2, iv2, hf2, hp2, hps, hix⟩ := hget k nm hk
          refine ⟨it2, iv2, hf2, ?_, by simpa using hps, by simpa using hix⟩
          rw [show i + (k + 1) = i + 1 + k by omega]
          exact hp2

theorem splitNamesLoop_ne_nil (fuel : Nat) (string : StringRef) :
    splitNamesLoop (fuel + 1) string ≠ [] := by
  simp [splitNamesLoop]

theorem splitNames_ne_nil (string : StringRef) : splitNames string ≠ [] :=
  splitNamesLoop_ne_nil _ _


theorem processName_error {cands : List (StringRef × ValueDecl)} {endLoc : Nat}
    {junk : Nat × Nat} {params : DiffParams} {indexes : IndexIntervalTable} {name : StringRef}
    {d : Diagnostic}
    (h : processName cands endLoc junk params indexes name = .error d) :
    d.level = Level.Error ∧ d.loc = endLoc := by
  unfold processName at h
  cases hf : findCandidate cands (substr name 0 (bracketPos name)) with
  | none =>
    simp only [hf] at h
    cases h
    exact ⟨rfl, rfl⟩
  | some it =>
    simp only [hf] at h
    by_cases hmem : it.2 ∈ params
    · rw [if_pos hmem] at h
      cases h
      exact ⟨rfl, rfl⟩
    · rw [if_neg hmem] at h
      by_cases hloc : bracketPos name ≠ name.length
      · rw [if_pos hloc] at h
        by_cases hlast : (split (slice name (bracketPos name + 1) (find name ']')) ':').2 = []
        · rw [if_pos hlast] at h
          cases h
        · rw [if_neg hlast] at h
          split at h
          · cases h
            exact ⟨rfl, rfl⟩
          · cases h
      · rw [if_neg hloc] at h
        cases h

theorem processNames_error (cands : List (StringRef × ValueDecl)) (endLoc : Nat)
    (indet : Nat → Nat × Nat) :
    ∀ (names : List StringRef) (i : Nat) (params : DiffParams) (indexes : IndexIntervalTable)
      (d : Diagnostic),
      processNames cands endLoc indet i names params indexes = .error d →
      d.level = Level.Error ∧ d.loc = endLoc := by
  intro names
  induction names with
  | nil =>
    intro i params indexes d h
    simp [processNames] at h
  | cons name rest ih =>
    intro i params indexes d h
    simp only [processNames] at h
    cases h1 : processName cands endLoc (indet i) params indexes name with
    | error d1 =>
      simp only [h1] at h
      cases h
      exact processName_error h1
    | ok r1 =>
      simp only [h1] at h
      exact ih _ _ _ _ h

/-- What `parseDiffArgs` does with a string literal. -/
theorem parseDiffArgs_string (diffArgs : DiffArgsExpr) {s : StringRef}
    (hs : diffArgs.stringLiteral = some s) (FD : FunctionDecl)
    (m_Functor : Option CXXRecordDecl) (indet : Nat → Nat × Nat) :
    parseDiffArgs diffArgs FD m_Functor indet =
      if trim s = [] then
        (([], []), [⟨Level.Error, diffArgs.endLoc, "No parameters were provided", []⟩])
      else
        match processNames (candidates FD m_Functor) diffArgs.endLoc indet 0
            (splitNames (trim s)) [] [] with
        | .error d => (([], []), [d])
        | .ok r => (r, []) := by
  unfold parseDiffArgs
  simp only [hs]

/-- Every call either emits exactly one diagnostic, an `Error`, and returns
the empty pair, or emits nothing and returns at least one parameter. -/
theorem parseDiffArgs_cases (diffArgs : DiffArgsExpr) (FD : FunctionDecl)
    (m_Functor : Option CXXRecordDecl) (indet : Nat → Nat × Nat) :
    (∃ d, d.level = Level.Error ∧ d.loc = diffArgs.endLoc ∧
        parseDiffArgs diffArgs FD m_Functor indet = (([], []), [d])) ∨
      ((parseDiffArgs diffArgs FD m_Functor indet).2 = [] ∧
        (parseDiffArgs diffArgs FD m_Functor indet).1.1 ≠ []) := by
  cases hs : diffArgs.stringLiteral with
  | some s =>
    rw [parseDiffArgs_string diffArgs hs]
    by_cases he : trim s = []
    · rw [if_pos he]
      exact Or.inl ⟨_, rfl, rfl, rfl⟩
    · rw [if_neg he]
      cases hp : processNames (candidates FD m_Functor) diffArgs.endLoc indet 0
          (splitNames (trim s)) [] [] with
      | error d =>
        exact Or.inl ⟨d, (processNames_error _ _ _ _ _ _ _ _ hp).1,
          (processNames_error _ _ _ _ _ _ _ _ hp).2, rfl⟩
      | ok r =>
        obtain ⟨ps, ixs, hr, hlp, -⟩ := processNames_ok _ _ _ _ _ _ _ _ hp
        refine Or.inr ⟨rfl, ?_⟩
        subst hr
        have hne := splitNames_ne_nil (trim s)
        intro hnil
        simp only [List.nil_append] at hnil
        rw [hnil] at hlp
        exact hne (List.length_eq_zero.mp hlp.symm)
  | none =>
    unfold parseDiffArgs
    simp only [hs]
    cases hi : diffArgs.evaluateAsInt with
    | some idx =>
      simp only
      split
      · split
        · exact Or.inl ⟨_, rfl, rfl, rfl⟩
        · exact Or.inr ⟨rfl, by simp⟩
      · split
        · exact Or.inl ⟨_, rfl, rfl, rfl⟩
        · exact Or.inr ⟨rfl, by simp⟩
    | none =>
      simp only
      split
      · split
        · rename_i hp
          rw [hp]
          exact Or.inl ⟨_, rfl, rfl, rfl⟩
        · rename_i hp
          exact Or.inr ⟨rfl, hp⟩
      · exact Or.inl ⟨_, rfl, rfl, rfl⟩

theorem parseDiffArgs_string_ok (diffArgs : DiffArgsExpr) {s : StringRef}
    (hs : diffArgs.stringLiteral = some s) (FD : FunctionDecl)
    (m_Functor : Option CXXRecordDecl) (indet : Nat → Nat × Nat)
    (hacc : (parseDiffArgs diffArgs FD m_Functor indet).2 = []) :
    trim s ≠ [] ∧
      processNames (candidates FD m_Functor) diffArgs.endLoc indet 0 (splitNames (trim s)) [] []
        = .ok (parseDiffArgs diffArgs FD m_Functor indet).1 := by
  rw [parseDiffArgs_string diffArgs hs] at hacc ⊢
  by_cases he : trim s = []
  · rw [if_pos he] at hacc
    simp at hacc
  · rw [if_neg he] at hacc ⊢
    refine ⟨he, ?_⟩
    cases hp : processNames (candidates FD m_Functor) diffArgs.endLoc indet 0
        (splitNames (trim s)) [] [] with
    | error d => simp [hp] at hacc
    | ok r => rfl


/-- The selection by position of Case 2, on a list `l` of declarations. -/
theorem selectByIndex_spec (loc : Nat) (i : Int) (l : List ValueDecl) (fmt : String) :
    (0 ≤ i → i < ((l.map (fun d => (d.getName, d))).length : Int) →
        ∃ c, (l.map (fun d => (d.getName, d)))[i.toNat]? = some c ∧
          (if h : i < 0 ∨ i ≥ l.length then
            ((([], []) : DiffParamsWithIndices), [(⟨Level.Error, loc, fmt,
              [to_string_int i, to_string l.length]⟩ : Diagnostic)])
          else (([l.get ⟨i.toNat, by omega⟩], []), [])) = (([c.2], []), [])) ∧
      (i < 0 ∨ i ≥ ((l.map (fun d => (d.getName, d))).length : Int) →
        ∃ fmt2, (if h : i < 0 ∨ i ≥ l.length then
            ((([], []) : DiffParamsWithIndices), [(⟨Level.Error, loc, fmt,
              [to_string_int i, to_string l.length]⟩ : Diagnostic)])
          else (([l.get ⟨i.toNat, by omega⟩], []), [])) =
          (([], []), [⟨Level.Error, loc, fmt2,
            [to_string_int i, to_string (l.map (fun d => (d.getName, d))).length]⟩])) := by
  simp only [List.length_map]
  constructor
  · intro h0 hN
    have hn : ¬ (i < 0 ∨ i ≥ (l.length : Int)) := by omega
    rw [dif_neg hn]
    have hlt : i.toNat < l.length := by omega
    refine ⟨((l.get ⟨i.toNat, hlt⟩).getName, l.get ⟨i.toNat, hlt⟩), ?_, rfl⟩
    rw [List.getElem?_map, List.getElem?_eq_getElem hlt]
    rfl
  · intro h
    rw [dif_pos h]
    exact ⟨_, rfl⟩

/-! ## Auxiliary facts about the order of the candidates -/

theorem findCandidate_perm {c1 c2 : List (StringRef × ValueDecl)} (hp : c1.Perm c2)
    (hnd : (c1.map Prod.fst).Nodup) (base : StringRef) :
    findCandidate c1 base = findCandidate c2 base := by
  unfold findCandidate
  cases h1 : c1.find? (fun p => decide (p.1 = base)) with
  | none =>
    symm
    rw [List.find?_eq_none] at h1 ⊢
    intro x hx
    exact h1 x (hp.mem_iff.mpr hx)
  | some it =>
    have hit : it ∈ c1 := List.mem_of_find?_eq_some h1
    have hname : it.1 = base := by simpa using List.find?_some h1
    cases h2 : c2.find? (fun p => decide (p.1 = base)) with
    | none =>
      rw [List.find?_eq_none] at h2
      exact absurd (by simpa using hname) (h2 it (hp.mem_iff.mp hit))
    | some it2 =>
      have hit2 : it2 ∈ c1 := hp.mem_iff.mpr (List.mem_of_find?_eq_some h2)
      have hname2 : it2.1 = base := by simpa using List.find?_some h2
      rw [List.inj_on_of_nodup_map hnd hit hit2 (hname.trans hname2.symm)]

theorem processName_congr {c1 c2 : List (StringRef × ValueDecl)}
    (h : ∀ base, findCandidate c1 base = findCandidate c2 base) (endLoc : Nat)
    (junk : Nat × Nat) (params : DiffParams) (indexes : IndexIntervalTable) (name : StringRef) :
    processName c1 endLoc junk params indexes name =
      processName c2 endLoc junk params indexes name := by
  unfold processName
  simp only [h]

theorem processNames_congr {c1 c2 : List (StringRef × ValueDecl)}
    (h : ∀ base, findCandidate c1 base = findCandidate c2 base) (endLoc : Nat)
    (indet : Nat → Nat × Nat) :
    ∀ (names : List StringRef) (i : Nat) (params : DiffParams) (indexes : IndexIntervalTable),
      processNames c1 endLoc indet i names params indexes =
        processNames c2 endLoc indet i names params indexes := by
  intro names
  induction names with
  | nil => intro i params indexes; rfl
  | cons name rest ih =>
    intro i params indexes
    simp only [processNames, processName_congr h]
    cases processName c2 endLoc (indet i) params indexes name with
    | error d => rfl
    | ok r => exact ih _ _ _

theorem candidates_perm {FD1 FD2 : FunctionDecl} (hp : FD1.parameters.Perm FD2.parameters)
    (m_Functor : Option CXXRecordDecl) :
    (candidates FD1 m_Functor).Perm (candidates FD2 m_Functor) := by
  obtain ⟨ps1⟩ := FD1
  obtain ⟨ps2⟩ := FD2
  simp only at hp
  cases ps2 with
  | nil =>
    rw [List.perm_nil.mp hp]
  | cons q qs =>
    cases ps1 with
    | nil => exact absurd (List.nil_perm.mp hp) (by simp)
    | cons p ps =>
      simp only [candidates]
      exact hp.map _

/-! ## Auxiliary facts about splitting -/

theorem find_eq_none {s : StringRef} {c : Char} (h : c ∉ s) : find s c = none := by
  induction s with
  | nil => rfl
  | cons x xs ih =>
    have hx : x ≠ c := fun e => h (e ▸ List.mem_cons_self _ _)
    have hxs : c ∉ xs := fun e => h (List.mem_cons_of_mem _ e)
    simp [find, hx, ih hxs]

theorem find_append_cons {a : StringRef} {c : Char} (b : StringRef) (h : c ∉ a) :
    find (a ++ c :: b) c = some a.length := by
  induction a with
  | nil => simp [find]
  | cons x xs ih =>
    have hx : x ≠ c := fun e => h (e ▸ List.mem_cons_self _ _)
    have hxs : c ∉ xs := fun e => h (List.mem_cons_of_mem _ e)
    simp [find, hx, ih hxs]

theorem exists_first_occurrence {s : StringRef} {c : Char} (h : c ∈ s) :
    ∃ a b, s = a ++ c :: b ∧ c ∉ a := by
  induction s with
  | nil => simp at h
  | cons x xs ih =>
    by_cases hx : x = c
    · exact ⟨[], xs, by simp [hx], by simp⟩
    · have hxs : c ∈ xs := by
        rcases List.mem_cons.mp h with e | e
        · exact absurd e.symm hx
        · exact e
      obtain ⟨a, b, hab, hna⟩ := ih hxs
      refine ⟨x :: a, b, by simp [hab], ?_⟩
      intro hm
      rcases List.mem_cons.mp hm with e | e
      · exact hx e.symm
      · exact hna e

theorem slice_prefix (a b : StringRef) (c : Char) :
    slice (a ++ c :: b) 0 (some a.length) = a := by
  simp [slice]

theorem slice_suffix (a b : StringRef) (c : Char) :
    slice (a ++ c :: b) (a.length + 1) none = b := by
  have h1 : min (a.length + 1) (a ++ c :: b).length = a.length + 1 := by
    simp only [List.length_append, List.length_cons]
    omega
  have h2 : (a ++ c :: b).drop (a.length + 1) = b := by
    rw [show a ++ c :: b = (a ++ [c]) ++ b by simp]
    exact List.drop_left' (by simp)
  simp only [slice, h1, h2]
  apply List.take_of_length_le
  simp only [List.length_append, List.length_cons]
  omega

theorem split_of_not_mem {s : StringRef} {c : Char} (h : c ∉ s) : split s c = (s, []) := by
  simp [split, find_eq_none h]

theorem split_append_cons {a : StringRef} {c : Char} (b : StringRef) (h : c ∉ a) :
    split (a ++ c :: b) c = (a, b) := by
  simp only [split, find_append_cons b h, slice_prefix, slice_suffix]

theorem commaTokens_ne_nil (s : StringRef) : commaTokens s ≠ [] := by
  induction s with
  | nil => simp [commaTokens]
  | cons x xs ih =>
    simp only [commaTokens]
    split
    · simp
    · split <;> simp

theorem commaTokens_of_not_mem {s : StringRef} (h : ',' ∉ s) : commaTokens s = [s] := by
  induction s with
  | nil => rfl
  | cons x xs ih =>
    have hx : x ≠ ',' := fun e => h (e ▸ List.mem_cons_self _ _)
    have hxs : ',' ∉ xs := fun e => h (List.mem_cons_of_mem _ e)
    simp [commaTokens, hx, ih hxs]

theorem commaTokens_append_cons {a : StringRef} (b : StringRef) (h : ',' ∉ a) :
    commaTokens (a ++ ',' :: b) = a :: commaTokens b := by
  induction a with
  | nil => simp [commaTokens]
  | cons x xs ih =>
    have hx : x ≠ ',' := fun e => h (e ▸ List.mem_cons_self _ _)
    have hxs : ',' ∉ xs := fun e => h (List.mem_cons_of_mem _ e)
    simp [commaTokens, hx, ih hxs]

/-- The loop of lines 55-58 returns the same list whenever it is allowed more
rounds than the text has characters, and that list is `loopTokens`, each
token trimmed. -/
theorem splitNamesLoop_fuel :
    ∀ (fuel : Nat) (t : StringRef), t.length < fuel →
      splitNamesLoop fuel t = (loopTokens t).map trim := by
  intro fuel
  induction fuel with
  | zero => intro t h; omega
  | succ n ih =>
    intro t hlen
    simp only [splitNamesLoop]
    by_cases hc : ',' ∈ t
    · obtain ⟨a, b, hab, hna⟩ := exists_first_occurrence hc
      subst hab
      rw [split_append_cons b hna]
      simp only
      by_cases hb : b = []
      · subst hb
        simp [loopTokens, commaTokens_append_cons [] hna, commaTokens]
      · rw [if_neg hb]
        have hlb : b.length < n := by
          simp only [List.length_append, List.length_cons] at hlen
          omega
        rw [ih b hlb]
        have hlast : (a ++ ',' :: b).getLast? = b.getLast? := by
          rw [show a ++ ',' :: b = (a ++ [',']) ++ b by simp]
          exact List.getLast?_append_of_ne_nil _ hb
        simp only [loopTokens, hlast, commaTokens_append_cons b hna]
        split
        · rw [List.dropLast_cons_of_ne_nil (commaTokens_ne_nil b)]
          simp
        · simp
    · rw [split_of_not_mem hc]
      have hlast : t.getLast? ≠ some ',' := by
        intro e
        exact hc (List.mem_of_getLast?_eq_some e)
      simp [loopTokens, hlast, commaTokens_of_not_mem hc]

theorem splitNames_eq (t : StringRef) : splitNames t = (loopTokens t).map trim :=
  splitNamesLoop_fuel _ t (Nat.lt_succ_self _)

theorem processNames_append (cands : List (StringRef × ValueDecl)) (endLoc : Nat)
    (indet : Nat → Nat × Nat) :
    ∀ (pre rest : List StringRef) (i : Nat) (params : DiffParams) (indexes : IndexIntervalTable),
      processNames cands endLoc indet i (pre ++ rest) params indexes =
        match processNames cands endLoc indet i pre params indexes with
        | .error d => .error d
        | .ok r => processNames cands endLoc indet (i + pre.length) rest r.1 r.2 := by
  intro pre
  induction pre with
  | nil =>
    intro rest i params indexes
    simp [processNames]
  | cons name pre ih =>
    intro rest i params indexes
    simp only [List.cons_append, processNames, List.append_eq]
    cases h1 : processName cands endLoc (indet i) params indexes name with
    | error d => rfl
    | ok r1 =>
      simp only
      rw [ih rest (i + 1) r1.1 r1.2]
      rw [show i + 1 + pre.length = i + (pre.length + 1) by omega]
      rfl

/-! ## Auxiliary facts about a token with a range -/

theorem foldlM_digitStep_digits :
    ∀ (s : StringRef) (acc v : Nat), s.foldlM digitStep acc = some v →
      ∀ c ∈ s, '0' ≤ c ∧ c ≤ '9' := by
  intro s
  induction s with
  | nil => intro acc v _ c hc; simp at hc
  | cons x xs ih =>
    intro acc v h c hc
    rw [List.foldlM_cons] at h
    cases hx : digitStep acc x with
    | none => simp [hx] at h
    | some r =>
      rw [hx] at h
      rcases List.mem_cons.mp hc with e | e
      · subst e
        unfold digitStep at hx
        by_contra hnd
        rw [if_neg hnd] at hx
        cases hx
      · exact ih r v h c e

theorem getAsInteger_digits {s : StringRef} {v : Nat} (h : getAsInteger s = some v) :
    s ≠ [] ∧ ∀ c ∈ s, '0' ≤ c ∧ c ≤ '9' := by
  unfold getAsInteger at h
  by_cases hs : s = []
  · rw [if_pos hs] at h
    cases h
  · rw [if_neg hs] at h
    exact ⟨hs, foldlM_digitStep_digits s 0 v h⟩

theorem digit_not_mem {s : StringRef} (hs : ∀ c ∈ s, '0' ≤ c ∧ c ≤ '9') (x : Char)
    (hx : ¬ ('0' ≤ x ∧ x ≤ '9')) : x ∉ s :=
  fun hm => hx (hs x hm)

theorem slice_middle (a m b : StringRef) :
    slice (a ++ m ++ b) a.length (some (a.length + m.length)) = m := by
  have h1 : min a.length (a ++ m ++ b).length = a.length := by
    simp only [List.length_append]
    omega
  have h2 : min (max a.length (a.length + m.length)) (a ++ m ++ b).length
      = a.length + m.length := by
    simp only [List.length_append]
    omega
  have h3 : (a ++ m ++ b).drop a.length = m ++ b := by
    rw [List.append_assoc]
    exact List.drop_left' rfl
  simp only [slice, h1, h2, h3]
  rw [show a.length + m.length - a.length = m.length by omega]
  exact List.take_left' rfl

theorem rangeToken_facts {nm sa sb : StringRef} {a b : Nat}
    (hnm1 : '[' ∉ nm) (hnm2 : ']' ∉ nm)
    (ha : getAsInteger sa = some a) (hb : getAsInteger sb = some b) :
    bracketPos (rangeToken nm sa sb) = nm.length ∧
      baseOf (rangeToken nm sa sb) = nm ∧
      nm.length ≠ (rangeToken nm sa sb).length ∧
      split (slice (rangeToken nm sa sb) (nm.length + 1) (find (rangeToken nm sa sb) ']')) ':'
        = (sa, sb) ∧
      sb ≠ [] := by
  obtain ⟨-, hda⟩ := getAsInteger_digits ha
  obtain ⟨hsb, hdb⟩ := getAsInteger_digits hb
  have hpos : bracketPos (rangeToken nm sa sb) = nm.length := by
    simp only [bracketPos, rangeToken, find_append_cons _ hnm1, Option.getD_some]
  have hbase : baseOf (rangeToken nm sa sb) = nm := by
    simp only [baseOf, hpos]
    simp [substr, rangeToken]
  have hlen : nm.length ≠ (rangeToken nm sa sb).length := by
    simp only [rangeToken, List.length_append, List.length_cons]
    omega
  have hsa1 : ']' ∉ sa := digit_not_mem hda _ (by decide)
  have hsb1 : ']' ∉ sb := digit_not_mem hdb _ (by decide)
  have hsa2 : ':' ∉ sa := digit_not_mem hda _ (by decide)
  have hre : rangeToken nm sa sb = (nm ++ ['[']) ++ (sa ++ ':' :: sb) ++ [']'] := by
    simp [rangeToken]
  have hnot : ']' ∉ (nm ++ ['[']) ++ (sa ++ ':' :: sb) := by
    simp only [List.mem_append, List.mem_cons, List.mem_singleton, List.not_mem_nil, not_or]
    exact ⟨⟨hnm2, by decide, not_false⟩, hsa1, by decide, hsb1⟩
  have hfind : find (rangeToken nm sa sb) ']'
      = some ((nm ++ ['[']).length + (sa ++ ':' :: sb).length) := by
    rw [hre, find_append_cons [] hnot, List.length_append]
  have hslice : slice (rangeToken nm sa sb) (nm.length + 1) (find (rangeToken nm sa sb) ']')
      = sa ++ ':' :: sb := by
    rw [hfind, hre]
    have := slice_middle (nm ++ ['[']) (sa ++ ':' :: sb) [']']
    simpa using this
  exact ⟨hpos, hbase, hlen, by rw [hslice, split_append_cons sb hsa2], hsb⟩

/-- The body of the loop on a token `name[first:last]` whose name selects a
candidate that is not yet among the parameters. -/
theorem processName_rangeToken {cands : List (StringRef × ValueDecl)} (endLoc : Nat)
    (junk : Nat × Nat) {params : DiffParams} (indexes : IndexIntervalTable)
    {nm sa sb : StringRef} {a b : Nat} {it : StringRef × ValueDecl}
    (hnm1 : '[' ∉ nm) (hnm2 : ']' ∉ nm)
    (ha : getAsInteger sa = some a) (hb : getAsInteger sb = some b)
    (hfind : findCandidate cands nm = some it) (hnew : it.2 ∉ params) :
    (a ≥ b → processName cands endLoc junk params indexes (rangeToken nm sa sb) =
        .error ⟨Level.Error, endLoc, "Range specified in '%0' is in incorrect format",
          [rangeToken nm sa sb]⟩) ∧
      (a < b → processName cands endLoc junk params indexes (rangeToken nm sa sb) =
        .ok (params ++ [it.2], indexes ++ [IndexInterval.range a b])) := by
  obtain ⟨hpos, hbase, hlen, hsplit, hsb⟩ := rangeToken_facts hnm1 hnm2 ha hb
  have hbase2 : substr (rangeToken nm sa sb) 0 nm.length = nm := by
    have := hbase
    simp only [baseOf, hpos] at this
    exact this
  unfold processName
  simp only [hpos, hbase2, hfind]
  rw [if_neg hnew, if_pos hlen]
  simp only [hsplit]
  rw [if_neg hsb]
  simp only [ha, hb, Option.getD_some]
  constructor
  · intro h
    rw [if_pos h]
  · intro h
    rw [if_neg (by omega)]

/-! ## Auxiliary facts about CreateUniqueIdentifier -/

theorem digitsVal_append_singleton (s : StringRef) (c : Char) :
    digitsVal (s ++ [c]) = digitsVal s * 10 + (c.toNat - '0'.toNat) := by
  simp [digitsVal, List.foldl_append]

theorem digitChar_val (d : Nat) (h : d < 10) :
    (Char.ofNat ('0'.toNat + d)).toNat - '0'.toNat = d := by
  interval_cases d <;> rfl

theorem digitsVal_decDigits : ∀ (fuel n : Nat), n < fuel → digitsVal (decDigits fuel n) = n := by
  intro fuel
  induction fuel with
  | zero => intro n h; omega
  | succ f ih =>
    intro n h
    unfold decDigits
    by_cases h10 : n < 10
    · rw [if_pos h10]
      have := digitsVal_append_singleton [] (Char.ofNat ('0'.toNat + n))
      simp only [List.nil_append] at this
      rw [this, digitChar_val n h10]
      simp [digitsVal]
    · rw [if_neg h10, digitsVal_append_singleton, digitChar_val _ (Nat.mod_lt _ (by omega)),
        ih (n / 10) (by omega)]
      omega

theorem to_string_injective {a b : Nat} (h : to_string a = to_string b) : a = b := by
  have ha := digitsVal_decDigits (a + 1) a (Nat.lt_succ_self _)
  have hb := digitsVal_decDigits (b + 1) b (Nat.lt_succ_self _)
  unfold to_string at h
  rw [h] at ha
  omega

theorem to_string_ne_nil (n : Nat) : to_string n ≠ [] := by
  unfold to_string decDigits
  split <;> simp

theorem tryStr_shift (idStr : StringRef) (id : Nat) (hid : id < 2 ^ 64) (i : Nat) :
    tryStr (to_string id) ((id + 1) % 2 ^ 64) i = tryStr idStr id (i + 1) := by
  cases i with
  | zero => simp only [tryStr, Nat.add_zero, Nat.mod_eq_of_lt hid]
  | succ k =>
    simp only [tryStr]
    congr 1
    rw [Nat.mod_add_mod]
    congr 1
    omega

/-- The loop returns in the first round whose name is not visible. -/
theorem uniqueLoop_spec (visible : List StringRef) (nameBase : StringRef) :
    ∀ (j fuel : Nat) (idStr : StringRef) (id : Nat), id < 2 ^ 64 → j < fuel →
      (∀ i < j, nameBase ++ tryStr idStr id i ∈ visible) →
      nameBase ++ tryStr idStr id j ∉ visible →
      uniqueLoop visible nameBase fuel idStr id =
        some (nameBase ++ tryStr idStr id j, (id + j) % 2 ^ 64) := by
  intro j
  induction j with
  | zero =>
    intro fuel idStr id hid hfuel _ hfree
    obtain ⟨f, rfl⟩ : ∃ f, fuel = f + 1 := ⟨fuel - 1, by omega⟩
    simp only [tryStr] at hfree
    simp only [uniqueLoop, tryStr, Nat.add_zero, Nat.mod_eq_of_lt hid]
    rw [if_pos hfree]
  | succ j ih =>
    intro fuel idStr id hid hfuel hseen hfree
    obtain ⟨f, rfl⟩ : ∃ f, fuel = f + 1 := ⟨fuel - 1, by omega⟩
    have h0 : nameBase ++ idStr ∈ visible := hseen 0 (Nat.succ_pos _)
    simp only [uniqueLoop]
    rw [if_neg (not_not.mpr h0)]
    have hid2 : (id + 1) % 2 ^ 64 < 2 ^ 64 := Nat.mod_lt _ (by positivity)
    rw [ih f (to_string id) ((id + 1) % 2 ^ 64) hid2 (by omega)
      (fun i hi => by rw [tryStr_shift idStr id hid]; exact hseen (i + 1) (by omega))
      (by rw [tryStr_shift idStr id hid]; exact hfree)]
    rw [tryStr_shift idStr id hid, Nat.mod_add_mod]
    congr 2
    omega

/-- More names than a list holds cannot all be in the list. -/
theorem exists_not_mem_of_injective (visible : List StringRef) (f : Nat → StringRef)
    (hinj : ∀ i j, i ≤ visible.length → j ≤ visible.length → f i = f j → i = j) :
    ∃ j, j ≤ visible.length ∧ f j ∉ visible := by
  by_contra hall
  have hmem : ∀ j, j ≤ visible.length → f j ∈ visible := by
    intro j hj
    by_contra hn
    exact hall ⟨j, hj, hn⟩
  have hnd : ((List.range (visible.length + 1)).map f).Nodup := by
    refine List.Nodup.map_on ?_ (List.nodup_range _)
    intro x hx y hy hxy
    exact hinj x y (by simpa [Nat.lt_succ_iff] using hx) (by simpa [Nat.lt_succ_iff] using hy) hxy
  have hsub : (List.range (visible.length + 1)).map f ⊆ visible := by
    intro x hx
    obtain ⟨j, hj, rfl⟩ := List.mem_map.mp hx
    exact hmem j (by simpa [Nat.lt_succ_iff] using hj)
  have hle := (List.subperm_of_subset hnd hsub).length_le
  simp at hle

/-- The loop returns, given more rounds than there are visible names, when
the texts it tries are pairwise different. -/
theorem uniqueLoop_terminates (visible : List StringRef) (nameBase idStr : StringRef) (id : Nat)
    (hid : id < 2 ^ 64)
    (hinj : ∀ i j, i ≤ visible.length → j ≤ visible.length →
      tryStr idStr id i = tryStr idStr id j → i = j) :
    ∃ j, j ≤ visible.length ∧ (∀ i < j, nameBase ++ tryStr idStr id i ∈ visible) ∧
      nameBase ++ tryStr idStr id j ∉ visible ∧
      ∀ fuel, visible.length < fuel →
        uniqueLoop visible nameBase fuel idStr id =
          some (nameBase ++ tryStr idStr id j, (id + j) % 2 ^ 64) := by
  have hex : ∃ j, nameBase ++ tryStr idStr id j ∉ visible := by
    obtain ⟨j, -, hj⟩ := exists_not_mem_of_injective visible
      (fun j => nameBase ++ tryStr idStr id j)
      (fun i j hi hj h => hinj i j hi hj (List.append_cancel_left h))
    exact ⟨j, hj⟩
  have hle : Nat.find hex ≤ visible.length := by
    obtain ⟨j, hjl, hj⟩ := exists_not_mem_of_injective visible
      (fun j => nameBase ++ tryStr idStr id j)
      (fun i j hi hj h => hinj i j hi hj (List.append_cancel_left h))
    exact le_trans (Nat.find_min' hex hj) hjl
  have hseen : ∀ i < Nat.find hex, nameBase ++ tryStr idStr id i ∈ visible := by
    intro i hi
    exact not_not.mp (Nat.find_min hex hi)
  exact ⟨Nat.find hex, hle, hseen, Nat.find_spec hex, fun fuel hfuel =>
    uniqueLoop_spec visible nameBase (Nat.find hex) fuel idStr id hid (by omega) hseen
      (Nat.find_spec hex)⟩

theorem tryStr_counted (c : Nat) (hc : c < 2 ^ 64) (j : Nat) :
    tryStr (to_string c) ((c + 1) % 2 ^ 64) j = to_string ((c + j) % 2 ^ 64) := by
  cases j with
  | zero => simp only [tryStr, Nat.add_zero, Nat.mod_eq_of_lt hc]
  | succ k =>
    simp only [tryStr]
    congr 1
    rw [Nat.mod_add_mod]
    congr 1
    omega

theorem tryStr_counted_injective (c n : Nat) (hc : c < 2 ^ 64) (hn : n < 2 ^ 64) :
    ∀ i j, i ≤ n → j ≤ n →
      tryStr (to_string c) ((c + 1) % 2 ^ 64) i = tryStr (to_string c) ((c + 1) % 2 ^ 64) j →
      i = j := by
  intro i j hi hj h
  rw [tryStr_counted c hc, tryStr_counted c hc] at h
  have := to_string_injective h
  omega

theorem tryStr_plain_injective (n : Nat) (hn : n < 2 ^ 64) :
    ∀ i j, i ≤ n → j ≤ n → tryStr [] 0 i = tryStr [] 0 j → i = j := by
  intro i j hi hj h
  cases i with
  | zero =>
    cases j with
    | zero => rfl
    | succ j => exact absurd h.symm (to_string_ne_nil _)
  | succ i =>
    cases j with
    | zero => exact absurd h (to_string_ne_nil _)
    | succ j =>
      simp only [tryStr] at h
      have := to_string_injective h
      omega

theorem countedName_false_of_plain {nameBase : StringRef}
    (h : startswith nameBase ['_'] = false ∨ startswith nameBase ['_', 'd', '_'] = true ∨
      startswith nameBase ['_', 'd', 'e', 'l', 't', 'a', '_'] = true) :
    countedName nameBase = false := by
  unfold countedName
  rcases h with h | h | h <;> simp [h]

/-! ## parseDiffArgs: the claims -/

/-- C1: when `parseDiffArgs` accepts a string spec (no diagnostic), the
parameters returned are, token by token and in the order of the tokens in the
string, the candidates the tokens select by their base name. The order of the
candidates plays no part: with candidate names that are pairwise distinct,
the result is the same for every reordering of the parameter list. -/
theorem parseDiffArgs_string_order (loc : Nat) (s : StringRef) (FD : FunctionDecl)
    (m_Functor : Option CXXRecordDecl) (indet : Nat → Nat × Nat) :
    ((parseDiffArgs (DiffArgsExpr.ofString loc s) FD m_Functor indet).2 = [] →
      (parseDiffArgs (DiffArgsExpr.ofString loc s) FD m_Functor indet).1.1.map some =
        (splitNames (trim s)).map
          (fun name => (findCandidate (candidates FD m_Functor) (baseOf name)).map Prod.snd)) ∧
    (∀ FD2 : FunctionDecl, FD2.parameters.Perm FD.parameters →
      ((candidates FD m_Functor).map Prod.fst).Nodup →
      parseDiffArgs (DiffArgsExpr.ofString loc s) FD2 m_Functor indet =
        parseDiffArgs (DiffArgsExpr.ofString loc s) FD m_Functor indet) := by
  constructor
  · intro hacc
    obtain ⟨-, hp⟩ := parseDiffArgs_string_ok (DiffArgsExpr.ofString loc s) rfl
      FD m_Functor indet hacc
    obtain ⟨ps, ixs, hr, -, -, hmap, -⟩ := processNames_ok _ _ _ _ _ _ _ _ hp
    rw [hr]
    simpa [declOf] using hmap
  · intro FD2 hperm hnd
    have hc := (candidates_perm hperm m_Functor).symm
    rw [parseDiffArgs_string (DiffArgsExpr.ofString loc s) rfl,
      parseDiffArgs_string (DiffArgsExpr.ofString loc s) rfl,
      processNames_congr (fun base => (findCandidate_perm hc hnd base).symm)]

/-- C1, on the spec `"y,x"` for `f(x, y)`: accepted, the result is `[y, x]`,
and it is the same for `f(y, x)`. -/
theorem parseDiffArgs_string_order_witness :
    (parseDiffArgs (DiffArgsExpr.ofString 0 ['y', ',', 'x']) ⟨[paramX, paramY]⟩ none
        zeroJunk).2 = [] ∧
      (parseDiffArgs (DiffArgsExpr.ofString 0 ['y', ',', 'x']) ⟨[paramX, paramY]⟩ none
        zeroJunk).1.1 = [paramY, paramX] ∧
      (parseDiffArgs (DiffArgsExpr.ofString 0 ['y', ',', 'x']) ⟨[paramX, paramY]⟩ none
        zeroJunk).1.1.map some =
        (splitNames (trim ['y', ',', 'x'])).map
          (fun name =>
            (findCandidate (candidates ⟨[paramX, paramY]⟩ none) (baseOf name)).map Prod.snd) ∧
      parseDiffArgs (DiffArgsExpr.ofString 0 ['y', ',', 'x']) ⟨[paramY, paramX]⟩ none zeroJunk =
        parseDiffArgs (DiffArgsExpr.ofString 0 ['y', ',', 'x']) ⟨[paramX, paramY]⟩ none
          zeroJunk :=
  ⟨by decide, by decide,
    (parseDiffArgs_string_order 0 ['y', ',', 'x'] ⟨[paramX, paramY]⟩ none zeroJunk).1
      (by decide),
    (parseDiffArgs_string_order 0 ['y', ',', 'x'] ⟨[paramX, paramY]⟩ none zeroJunk).2
      ⟨[paramY, paramX]⟩ (List.Perm.swap _ _ _) (by decide)⟩

/-- C2: for every spec expression and function, with or without a functor,
`parseDiffArgs` returns an empty parameter list exactly when it emitted a
diagnostic of severity `Error`; and whenever it emitted one, both components
of the result are empty. -/
theorem parseDiffArgs_empty_iff_error (diffArgs : DiffArgsExpr) (FD : FunctionDecl)
    (m_Functor : Option CXXRecordDecl) (indet : Nat → Nat × Nat) :
    ((parseDiffArgs diffArgs FD m_Functor indet).1.1 = [] ↔
        ∃ d ∈ (parseDiffArgs diffArgs FD m_Functor indet).2, d.level = Level.Error) ∧
      ((∃ d ∈ (parseDiffArgs diffArgs FD m_Functor indet).2, d.level = Level.Error) →
        (parseDiffArgs diffArgs FD m_Functor indet).1 = ([], [])) := by
  rcases parseDiffArgs_cases diffArgs FD m_Functor indet with ⟨d, hd, -, he⟩ | ⟨hnil, hne⟩
  · rw [he]
    exact ⟨⟨fun _ => ⟨d, by simp, hd⟩, fun _ => rfl⟩, fun _ => rfl⟩
  · rw [hnil]
    refine ⟨⟨fun h => absurd h hne, ?_⟩, ?_⟩
    · rintro ⟨d, hd, -⟩
      simp at hd
    · rintro ⟨d, hd, -⟩
      simp at hd

/-- C3: no declaration appears twice in a result. A string spec in which two
tokens (at different positions) have the same base name yields one `Error`
diagnostic and the empty result; and, the parameter declarations of the
function being distinct, the parameters returned for any spec are pairwise
distinct. -/
theorem parseDiffArgs_no_duplicates (diffArgs : DiffArgsExpr) (FD : FunctionDecl)
    (m_Functor : Option CXXRecordDecl) (indet : Nat → Nat × Nat) :
    (∀ (s a b : StringRef) (i j : Nat), diffArgs.stringLiteral = some s →
        (splitNames (trim s))[i]? = some a → (splitNames (trim s))[j]? = some b →
        i ≠ j → baseOf a = baseOf b →
        ∃ d, d.level = Level.Error ∧
          parseDiffArgs diffArgs FD m_Functor indet = (([], []), [d])) ∧
      (FD.parameters.Nodup → (parseDiffArgs diffArgs FD m_Functor indet).1.1.Nodup) := by
  constructor
  · intro s a b i j hs ha hb hij hbase
    rcases parseDiffArgs_cases diffArgs FD m_Functor indet with ⟨d, hd, -, he⟩ | ⟨hnil, -⟩
    · exact ⟨d, hd, he⟩
    · exfalso
      obtain ⟨-, hp⟩ := parseDiffArgs_string_ok diffArgs hs FD m_Functor indet hnil
      obtain ⟨ps, ixs, -, -, -, hmap, hnd, -⟩ := processNames_ok _ _ _ _ _ _ _ _ hp
      have hps : ps.Nodup := by simpa using hnd List.nodup_nil
      have hm : ((splitNames (trim s)).map (declOf (candidates FD m_Functor))).Nodup := by
        rw [← hmap]
        exact hps.map (Option.some_injective _)
      have key : ∀ (i j : Nat) (a b : StringRef), i < j →
          (splitNames (trim s))[i]? = some a → (splitNames (trim s))[j]? = some b →
          baseOf a = baseOf b → False := by
        intro i j a b hlt ha hb hbase
        have hj : j < ((splitNames (trim s)).map (declOf (candidates FD m_Functor))).length := by
          rw [List.length_map]
          exact (List.getElem?_eq_some.mp hb).1
        refine List.nodup_iff_getElem?_ne_getElem?.mp hm i j hlt hj ?_
        rw [List.getElem?_map, List.getElem?_map, ha, hb]
        simp [declOf, hbase]
      rcases Nat.lt_or_gt_of_ne hij with hlt | hgt
      · exact key i j a b hlt ha hb hbase
      · exact key j i b a hgt hb ha hbase.symm
  · intro hFD
    cases hs : diffArgs.stringLiteral with
    | some s =>
      rcases parseDiffArgs_cases diffArgs FD m_Functor indet with ⟨d, -, -, he⟩ | ⟨hnil, -⟩
      · rw [he]
        exact List.nodup_nil
      · obtain ⟨-, hp⟩ := parseDiffArgs_string_ok diffArgs hs FD m_Functor indet hnil
        obtain ⟨ps, ixs, hr, -, -, -, hnd, -⟩ := processNames_ok _ _ _ _ _ _ _ _ hp
        rw [hr]
        exact hnd List.nodup_nil
    | none =>
      unfold parseDiffArgs
      simp only [hs]
      cases hi : diffArgs.evaluateAsInt with
      | some idx =>
        simp only
        split
        · split
          · exact List.nodup_nil
          · exact List.nodup_singleton _
        · split
          · exact List.nodup_nil
          · exact List.nodup_singleton _
      | none =>
        simp only
        split
        · split
          · rename_i hp
            rw [hp]
            exact List.nodup_nil
          · exact hFD
        · exact List.nodup_nil

/-- C3, on the specs `"x,x"` and `"x[1],x[2]"` for `f(x, y)` (both rejected)
and on the unspecified marker (both parameters, distinct). -/
theorem parseDiffArgs_no_duplicates_witness :
    (∃ d, d.level = Level.Error ∧
        parseDiffArgs (DiffArgsExpr.ofString 0 ['x', ',', 'x']) ⟨[paramX, paramY]⟩ none zeroJunk
          = (([], []), [d])) ∧
      (∃ d, d.level = Level.Error ∧
        parseDiffArgs (DiffArgsExpr.ofString 0 ['x', '[', '1', ']', ',', 'x', '[', '2', ']'])
          ⟨[paramX, paramY]⟩ none zeroJunk = (([], []), [d])) ∧
      (FunctionDecl.mk [paramX, paramY]).parameters.Nodup ∧
      (parseDiffArgs (DiffArgsExpr.unspecified 0) ⟨[paramX, paramY]⟩ none zeroJunk).1.1.Nodup :=
  ⟨(parseDiffArgs_no_duplicates (DiffArgsExpr.ofString 0 ['x', ',', 'x'])
      ⟨[paramX, paramY]⟩ none zeroJunk).1 ['x', ',', 'x'] ['x'] ['x'] 0 1 rfl
      (by decide) (by decide) (by decide) (by decide),
    (parseDiffArgs_no_duplicates
      (DiffArgsExpr.ofString 0 ['x', '[', '1', ']', ',', 'x', '[', '2', ']'])
      ⟨[paramX, paramY]⟩ none zeroJunk).1 ['x', '[', '1', ']', ',', 'x', '[', '2', ']']
      ['x', '[', '1', ']'] ['x', '[', '2', ']'] 0 1 rfl
      (by decide) (by decide) (by decide) (by decide),
    by decide,
    (parseDiffArgs_no_duplicates (DiffArgsExpr.unspecified 0) ⟨[paramX, paramY]⟩ none
      zeroJunk).2 (by decide)⟩


/-- C4: for an integer spec `i` and the `N` candidates (the parameters, or
the fields of the functor when the function has no parameter and a functor is
set): if `0 <= i < N` the result is the one-element list holding candidate
`i`, with an empty interval table and no diagnostic; if `i < 0` or `i >= N`
one `Error` diagnostic with the arguments `i` and `N` is emitted and the
result is empty. -/
theorem parseDiffArgs_integer (loc : Nat) (i : Int) (FD : FunctionDecl)
    (m_Functor : Option CXXRecordDecl) (indet : Nat → Nat × Nat) :
    (0 ≤ i → i < ((candidates FD m_Functor).length : Int) →
        ∃ c, (candidates FD m_Functor)[i.toNat]? = some c ∧
          parseDiffArgs (DiffArgsExpr.ofInt loc i) FD m_Functor indet = (([c.2], []), [])) ∧
      (i < 0 ∨ i ≥ ((candidates FD m_Functor).length : Int) →
        ∃ fmt, parseDiffArgs (DiffArgsExpr.ofInt loc i) FD m_Functor indet =
          (([], []), [⟨Level.Error, loc, fmt,
            [to_string_int i, to_string (candidates FD m_Functor).length]⟩])) := by
  obtain ⟨ps⟩ := FD
  have hsel := selectByIndex_spec loc i
  cases ps with
  | nil =>
    cases m_Functor with
    | some functor =>
      exact hsel functor.fields
        "Invalid member variable index '%0' of '%1' member variable(s)"
    | none => exact hsel [] "Invalid argument index '%0' of '%1' argument(s)"
  | cons p ps => exact hsel (p :: ps) "Invalid argument index '%0' of '%1' argument(s)"

/-- C4, on the integer spec `1` for a call operator without parameters of a
type with three fields: the second field is the only target; and on the spec
`3` for the same functor: an error. -/
theorem parseDiffArgs_integer_witness :
    parseDiffArgs (DiffArgsExpr.ofInt 0 1) ⟨[]⟩ (some ⟨[fieldA, fieldB, fieldC]⟩) zeroJunk
        = (([fieldB], []), []) ∧
      (∃ fmt, parseDiffArgs (DiffArgsExpr.ofInt 0 3) ⟨[]⟩ (some ⟨[fieldA, fieldB, fieldC]⟩)
        zeroJunk = (([], []), [⟨Level.Error, 0, fmt, [['3'], ['3']]⟩])) := by
  constructor
  · obtain ⟨c, hc, h⟩ := (parseDiffArgs_integer 0 1 ⟨[]⟩ (some ⟨[fieldA, fieldB, fieldC]⟩)
      zeroJunk).1 (by decide) (by decide)
    have hc2 : c = (['b'], fieldB) := by
      have h1 : (candidates ⟨[]⟩ (some ⟨[fieldA, fieldB, fieldC]⟩))[(1 : Int).toNat]?
          = some (['b'], fieldB) := by decide
      rw [h1] at hc
      exact (Option.some.inj hc).symm
    rw [h, hc2]
  · exact (parseDiffArgs_integer 0 3 ⟨[]⟩ (some ⟨[fieldA, fieldB, fieldC]⟩) zeroJunk).2
      (by decide)

/-- C5: on the unspecified (defaulted) marker, a function with `N > 0`
parameters yields exactly its parameters in declaration order, an empty
interval table and no diagnostic; a function with no parameter yields one
`Error` diagnostic and the empty result. -/
theorem parseDiffArgs_unspecified (loc : Nat) (FD : FunctionDecl)
    (m_Functor : Option CXXRecordDecl) (indet : Nat → Nat × Nat) :
    (0 < FD.parameters.length →
        parseDiffArgs (DiffArgsExpr.unspecified loc) FD m_Functor indet
          = ((FD.parameters, []), [])) ∧
      (FD.parameters.length = 0 →
        ∃ d, d.level = Level.Error ∧
          parseDiffArgs (DiffArgsExpr.unspecified loc) FD m_Functor indet = (([], []), [d])) := by
  unfold parseDiffArgs
  simp only [DiffArgsExpr.unspecified, if_true]
  constructor
  · intro h
    have hne : FD.parameters ≠ [] := by
      intro h0
      rw [h0] at h
      exact Nat.lt_irrefl _ h
    rw [if_neg hne]
  · intro h
    have he : FD.parameters = [] := List.length_eq_zero.mp h
    rw [if_pos he, he]
    exact ⟨_, rfl, rfl⟩

/-- C5, on `f(x, y)` and on a function without parameters. -/
theorem parseDiffArgs_unspecified_witness :
    parseDiffArgs (DiffArgsExpr.unspecified 0) ⟨[paramX, paramY]⟩ none zeroJunk
        = (([paramX, paramY], []), []) ∧
      (∃ d, d.level = Level.Error ∧
        parseDiffArgs (DiffArgsExpr.unspecified 0) ⟨[]⟩ none zeroJunk = (([], []), [d])) :=
  ⟨(parseDiffArgs_unspecified 0 ⟨[paramX, paramY]⟩ none zeroJunk).1 (by decide),
    (parseDiffArgs_unspecified 0 ⟨[]⟩ none zeroJunk).2 (by decide)⟩

/-- C6: on the unspecified marker, a call operator without parameters whose
functor has the two fields `a` and `b` does not get these fields: the code
copies the (absent) parameters and reports
"Attempted to differentiate a function without parameters". -/
theorem parseDiffArgs_unspecified_functor :
    parseDiffArgs (DiffArgsExpr.unspecified 0) ⟨[]⟩ (some ⟨[fieldA, fieldB]⟩) zeroJunk
      = (([], []),
        [⟨Level.Error, 0, "Attempted to differentiate a function without parameters", []⟩]) ∧
    (candidates ⟨[]⟩ (some ⟨[fieldA, fieldB]⟩)).map Prod.snd = [fieldA, fieldB] := by
  constructor
  · rfl
  · rfl


/-- C7 as stated fails. On the spec `"x,"` for `f(x)` the tokens the claim
counts are `x` and the empty token after the comma, which names no candidate;
the code stops splitting when the remainder is empty, reports nothing and
returns `[x]`. On `"x,x,q"` the unmatched token `q` is never looked at: the
only diagnostic is the one for the repeated `x`. -/
theorem parseDiffArgs_trailing_comma_accepted :
    ((∃ tok ∈ specTokens ['x', ','],
          findCandidate (candidates ⟨[paramX]⟩ none) (baseOf tok) = none) ∧
        parseDiffArgs (DiffArgsExpr.ofString 0 ['x', ',']) ⟨[paramX]⟩ none zeroJunk
          = (([paramX], [IndexInterval.whole]), [])) ∧
      ((∃ tok ∈ specTokens ['x', ',', 'x', ',', 'q'], tok = ['q'] ∧
          findCandidate (candidates ⟨[paramX]⟩ none) (baseOf tok) = none) ∧
        parseDiffArgs (DiffArgsExpr.ofString 0 ['x', ',', 'x', ',', 'q']) ⟨[paramX]⟩ none
          zeroJunk = (([], []),
            [⟨Level.Error, 0, "Requested parameter '%0' was specified multiple times",
              [['x']]⟩])) := by
  refine ⟨⟨⟨[], by decide, by decide⟩, by decide⟩, ⟨⟨['q'], by decide, rfl, by decide⟩, ?_⟩⟩
  decide

/-- C7, amended: the tokens of a string spec are those of the trimmed text
split on commas, each trimmed, without the empty token that follows a
trailing comma. If the base name of any of these tokens (an empty token from
a leading or doubled comma included) equals no candidate's name, one `Error`
diagnostic is emitted and the result is empty; when the tokens before it are
all accepted, that diagnostic is the "not found" one and names the base of
the token. -/
theorem parseDiffArgs_unmatched_name (loc : Nat) (s : StringRef) (FD : FunctionDecl)
    (m_Functor : Option CXXRecordDecl) (indet : Nat → Nat × Nat) :
    splitNames (trim s) =
        (if (trim s).getLast? = some ',' then (commaTokens (trim s)).dropLast
          else commaTokens (trim s)).map trim ∧
      (∀ name ∈ splitNames (trim s),
        findCandidate (candidates FD m_Functor) (baseOf name) = none →
        ∃ d, d.level = Level.Error ∧
          parseDiffArgs (DiffArgsExpr.ofString loc s) FD m_Functor indet = (([], []), [d])) ∧
      (∀ (pre post : List StringRef) (name : StringRef) (r : DiffParamsWithIndices),
        trim s ≠ [] → splitNames (trim s) = pre ++ name :: post →
        processNames (candidates FD m_Functor) loc indet 0 pre [] [] = .ok r →
        findCandidate (candidates FD m_Functor) (baseOf name) = none →
        parseDiffArgs (DiffArgsExpr.ofString loc s) FD m_Functor indet = (([], []),
          [⟨Level.Error, loc,
            "Requested parameter name '%0' was not found among function parameters",
            [baseOf name]⟩])) := by
  refine ⟨splitNames_eq (trim s), ?_, ?_⟩
  · intro name hmem hnone
    rcases parseDiffArgs_cases (DiffArgsExpr.ofString loc s) FD m_Functor indet with
      ⟨d, hd, -, he⟩ | ⟨hnil, -⟩
    · exact ⟨d, hd, he⟩
    · exfalso
      obtain ⟨-, hp⟩ := parseDiffArgs_string_ok (DiffArgsExpr.ofString loc s) rfl
        FD m_Functor indet hnil
      obtain ⟨ps, ixs, -, -, -, -, -, hget⟩ := processNames_ok _ _ _ _ _ _ _ _ hp
      obtain ⟨k, hk⟩ := List.mem_iff_getElem?.mp hmem
      obtain ⟨it, iv, hf, -⟩ := hget k name hk
      rw [hnone] at hf
      cases hf
  · intro pre post name r hne hsplit hpre hnone
    rw [parseDiffArgs_string (DiffArgsExpr.ofString loc s) rfl, if_neg hne, hsplit,
      processNames_append]
    simp only [DiffArgsExpr.ofString] at hpre ⊢
    rw [hpre]
    simp only [processNames, processName]
    have hnone2 : findCandidate (candidates FD m_Functor) (substr name 0 (bracketPos name))
        = none := hnone
    rw [hnone2]
    rfl

/-- C7 amended, on the spec `"x,,y"` for `f(x, y)`: the empty token of the
doubled comma is reported as not found. -/
theorem parseDiffArgs_unmatched_name_witness :
    (∃ d, d.level = Level.Error ∧
        parseDiffArgs (DiffArgsExpr.ofString 0 ['x', ',', ',', 'y']) ⟨[paramX, paramY]⟩ none
          zeroJunk = (([], []), [d])) ∧
      parseDiffArgs (DiffArgsExpr.ofString 0 ['x', ',', ',', 'y']) ⟨[paramX, paramY]⟩ none
          zeroJunk = (([], []),
            [⟨Level.Error, 0,
              "Requested parameter name '%0' was not found among function parameters",
              [[]]⟩]) :=
  ⟨(parseDiffArgs_unmatched_name 0 ['x', ',', ',', 'y'] ⟨[paramX, paramY]⟩ none zeroJunk).2.1
      [] (by decide) (by decide),
    (parseDiffArgs_unmatched_name 0 ['x', ',', ',', 'y'] ⟨[paramX, paramY]⟩ none zeroJunk).2.2
      [['x']] [['y']] [] ([paramX], [IndexInterval.whole])
      (by decide) (by decide) rfl (by decide)⟩

/-- C8: a token `name[a:b]` whose name (free of brackets) selects a candidate
not yet among the parameters and whose `a`, `b` are decimal numerals that fit
in 64 bits is rejected with an `Error` diagnostic when `a >= b`, and is
accepted when `a < b`, the parameter and the interval `(a, b)` being appended
to the two lists at the same position. For a string spec holding such a
token at position `i`: `a >= b` gives an `Error` and the empty result, and in
an accepted spec `a < b`, entry `i` of the interval table is the interval
`(a, b)` and entry `i` of the parameters is the candidate the name selects.
The interval table of every accepted string spec has as many entries as there
are parameters. -/
theorem parseDiffArgs_range (loc : Nat) (s : StringRef) (FD : FunctionDecl)
    (m_Functor : Option CXXRecordDecl) (indet : Nat → Nat × Nat) :
    (∀ (nm sa sb : StringRef) (a b : Nat), '[' ∉ nm → ']' ∉ nm →
        getAsInteger sa = some a → getAsInteger sb = some b →
        (∀ (params : DiffParams) (indexes : IndexIntervalTable) (junk : Nat × Nat)
            (it : StringRef × ValueDecl),
          findCandidate (candidates FD m_Functor) nm = some it → it.2 ∉ params →
          (a ≥ b → processName (candidates FD m_Functor) loc junk params indexes
              (rangeToken nm sa sb) =
            .error ⟨Level.Error, loc, "Range specified in '%0' is in incorrect format",
              [rangeToken nm sa sb]⟩) ∧
          (a < b → processName (candidates FD m_Functor) loc junk params indexes
              (rangeToken nm sa sb) =
            .ok (params ++ [it.2], indexes ++ [IndexInterval.range a b]))) ∧
        (∀ i : Nat, (splitNames (trim s))[i]? = some (rangeToken nm sa sb) →
          (a ≥ b → ∃ d, d.level = Level.Error ∧
            parseDiffArgs (DiffArgsExpr.ofString loc s) FD m_Functor indet = (([], []), [d])) ∧
          ((parseDiffArgs (DiffArgsExpr.ofString loc s) FD m_Functor indet).2 = [] →
            a < b ∧
            (parseDiffArgs (DiffArgsExpr.ofString loc s) FD m_Functor indet).1.2[i]?
              = some (IndexInterval.range a b) ∧
            ((parseDiffArgs (DiffArgsExpr.ofString loc s) FD m_Functor indet).1.1[i]?).map some
              = some ((findCandidate (candidates FD m_Functor) nm).map Prod.snd)))) ∧
      ((parseDiffArgs (DiffArgsExpr.ofString loc s) FD m_Functor indet).2 = [] →
        (parseDiffArgs (DiffArgsExpr.ofString loc s) FD m_Functor indet).1.2.length =
          (parseDiffArgs (DiffArgsExpr.ofString loc s) FD m_Functor indet).1.1.length) := by
  constructor
  · intro nm sa sb a b hnm1 hnm2 ha hb
    have hacc : ∀ i : Nat, (splitNames (trim s))[i]? = some (rangeToken nm sa sb) →
        (parseDiffArgs (DiffArgsExpr.ofString loc s) FD m_Functor indet).2 = [] →
        a < b ∧
        (parseDiffArgs (DiffArgsExpr.ofString loc s) FD m_Functor indet).1.2[i]?
          = some (IndexInterval.range a b) ∧
        ((parseDiffArgs (DiffArgsExpr.ofString loc s) FD m_Functor indet).1.1[i]?).map some
          = some ((findCandidate (candidates FD m_Functor) nm).map Prod.snd) := by
      intro i htok hnil
      obtain ⟨-, hp⟩ := parseDiffArgs_string_ok (DiffArgsExpr.ofString loc s) rfl
        FD m_Functor indet hnil
      obtain ⟨ps, ixs, hr, -, -, -, -, hget⟩ := processNames_ok _ _ _ _ _ _ _ _ hp
      obtain ⟨it, iv, hf, hfresh, hps, hix⟩ := hget i _ htok
      rw [(rangeToken_facts hnm1 hnm2 ha hb).2.1] at hf
      have htl := processName_rangeToken (DiffArgsExpr.ofString loc s).endLoc (indet (0 + i)) []
        hnm1 hnm2 ha hb hf (List.not_mem_nil _)
      have hlt : a < b := by
        by_contra hge
        rw [htl.1 (by omega)] at hfresh
        cases hfresh
      rw [htl.2 hlt] at hfresh
      have hiv : iv = IndexInterval.range a b := by
        have := Except.ok.inj hfresh
        simp only [List.nil_append, Prod.mk.injEq, List.cons.injEq, and_true, true_and] at this
        exact this.symm
      rw [hr]
      simp only [List.nil_append]
      rw [hps, hix, hiv, hf]
      exact ⟨hlt, rfl, rfl⟩
    constructor
    · intro params indexes junk it hf hnew
      exact processName_rangeToken loc junk indexes hnm1 hnm2 ha hb hf hnew
    · intro i htok
      constructor
      · intro hge
        rcases parseDiffArgs_cases (DiffArgsExpr.ofString loc s) FD m_Functor indet with
          ⟨d, hd, -, he⟩ | ⟨hnil, -⟩
        · exact ⟨d, hd, he⟩
        · have := (hacc i htok hnil).1
          omega
      · exact hacc i htok
  · intro hnil
    obtain ⟨-, hp⟩ := parseDiffArgs_string_ok (DiffArgsExpr.ofString loc s) rfl
      FD m_Functor indet hnil
    obtain ⟨ps, ixs, hr, hlp, hli, -⟩ := processNames_ok _ _ _ _ _ _ _ _ hp
    rw [hr]
    simp [hlp, hli]

/-- C8, on the specs `"y,x[1:3]"` (accepted) and `"x[3:1]"` (rejected) for
`f(x, y)`. -/
theorem parseDiffArgs_range_witness :
    parseDiffArgs (DiffArgsExpr.ofString 0 ['y', ',', 'x', '[', '1', ':', '3', ']'])
        ⟨[paramX, paramY]⟩ none zeroJunk
        = (([paramY, paramX], [IndexInterval.whole, IndexInterval.range 1 3]), []) ∧
      (1 < 3 ∧
        (parseDiffArgs (DiffArgsExpr.ofString 0 ['y', ',', 'x', '[', '1', ':', '3', ']'])
          ⟨[paramX, paramY]⟩ none zeroJunk).1.2[1]? = some (IndexInterval.range 1 3) ∧
        ((parseDiffArgs (DiffArgsExpr.ofString 0 ['y', ',', 'x', '[', '1', ':', '3', ']'])
          ⟨[paramX, paramY]⟩ none zeroJunk).1.1[1]?).map some
          = some ((findCandidate (candidates ⟨[paramX, paramY]⟩ none) ['x']).map Prod.snd)) ∧
      (∃ d, d.level = Level.Error ∧
        parseDiffArgs (DiffArgsExpr.ofString 0 ['x', '[', '3', ':', '1', ']'])
          ⟨[paramX, paramY]⟩ none zeroJunk = (([], []), [d])) :=
  ⟨by decide,
    (((parseDiffArgs_range 0 ['y', ',', 'x', '[', '1', ':', '3', ']'] ⟨[paramX, paramY]⟩ none
      zeroJunk).1 ['x'] ['1'] ['3'] 1 3 (by decide) (by decide) (by decide) (by decide)).2 1
      (by decide)).2 (by decide),
    (((parseDiffArgs_range 0 ['x', '[', '3', ':', '1', ']'] ⟨[paramX, paramY]⟩ none
      zeroJunk).1 ['x'] ['3'] ['1'] 3 1 (by decide) (by decide) (by decide) (by decide)).2 0
      (by decide)).1 (by decide)⟩

/-! ## CreateUniqueIdentifier: the claims -/

/-- C9: for every name prefix and every scope chain with finitely many
visible names (fewer than `2^64`, as is the counter of the prefix),
`CreateUniqueIdentifier` returns: whenever it is allowed more rounds than
there are visible names it yields one and the same identifier, which is not
visible, and which is the prefix followed by nothing or by a decimal number. -/
theorem CreateUniqueIdentifier_fresh (visible : List StringRef) (m_idCtr : IdCtr)
    (nameBase : StringRef) (hlen : visible.length < 2 ^ 64)
    (hctr : m_idCtr nameBase < 2 ^ 64) :
    ∃ name ctr,
      (∀ fuel, visible.length < fuel →
        CreateUniqueIdentifier fuel visible m_idCtr nameBase = some (name, ctr)) ∧
      name ∉ visible ∧ (name = nameBase ∨ ∃ k, name = nameBase ++ to_string k) := by
  by_cases hcn : countedName nameBase = true
  · obtain ⟨j, -, -, hfree, hloop⟩ := uniqueLoop_terminates visible nameBase
      (to_string (m_idCtr nameBase)) ((m_idCtr nameBase + 1) % 2 ^ 64)
      (Nat.mod_lt _ (by positivity))
      (tryStr_counted_injective (m_idCtr nameBase) visible.length hctr hlen)
    refine ⟨nameBase ++ tryStr (to_string (m_idCtr nameBase))
        ((m_idCtr nameBase + 1) % 2 ^ 64) j,
      Function.update m_idCtr nameBase (((m_idCtr nameBase + 1) % 2 ^ 64 + j) % 2 ^ 64),
      fun fuel hfuel => ?_, hfree, Or.inr ⟨(m_idCtr nameBase + j) % 2 ^ 64, ?_⟩⟩
    · simp only [CreateUniqueIdentifier, hcn, if_true]
      rw [hloop fuel hfuel]
    · rw [tryStr_counted _ hctr]
  · have hcf : countedName nameBase = false := by
      cases h : countedName nameBase
      · rfl
      · exact absurd h hcn
    obtain ⟨j, -, -, hfree, hloop⟩ := uniqueLoop_terminates visible nameBase [] 0
      (by positivity) (tryStr_plain_injective visible.length hlen)
    refine ⟨nameBase ++ tryStr [] 0 j, m_idCtr, fun fuel hfuel => ?_, hfree, ?_⟩
    · simp only [CreateUniqueIdentifier, hcf, Bool.false_eq_true, if_false]
      rw [hloop fuel hfuel]
    · cases j with
      | zero => exact Or.inl (by simp [tryStr])
      | succ k => exact Or.inr ⟨(0 + k) % 2 ^ 64, rfl⟩

/-- C9, for the prefix `_t` with `_t0` and `x` visible and all counters zero. -/
theorem CreateUniqueIdentifier_fresh_witness :
    (CreateUniqueIdentifier 3 [['_', 't', '0'], ['x']] (fun _ => 0) ['_', 't']).map Prod.fst
        = some ['_', 't', '1'] ∧
      ∃ name ctr,
        (∀ fuel, [['_', 't', '0'], ['x']].length < fuel →
          CreateUniqueIdentifier fuel [['_', 't', '0'], ['x']] (fun _ => 0) ['_', 't']
            = some (name, ctr)) ∧
        name ∉ [['_', 't', '0'], ['x']] ∧
        (name = ['_', 't'] ∨ ∃ k, name = ['_', 't'] ++ to_string k) :=
  ⟨by decide,
    CreateUniqueIdentifier_fresh [['_', 't', '0'], ['x']] (fun _ => 0) ['_', 't']
      (by decide) (by decide)⟩

/-- C10: for a prefix that does not start with `_`, or starts with `_d_` or
`_delta_`, and a scope chain with fewer than `2^64` visible names,
`CreateUniqueIdentifier` (allowed more rounds than there are visible names)
returns the bare prefix when it is not visible, and otherwise the prefix
followed by the decimal form of the least `k` such that prefix+`k` is not
visible. In both cases `m_idCtr` is returned unchanged. -/
theorem CreateUniqueIdentifier_plain (visible : List StringRef) (m_idCtr : IdCtr)
    (nameBase : StringRef)
    (hplain : startswith nameBase ['_'] = false ∨ startswith nameBase ['_', 'd', '_'] = true ∨
      startswith nameBase ['_', 'd', 'e', 'l', 't', 'a', '_'] = true)
    (hlen : visible.length < 2 ^ 64) (fuel : Nat) (hfuel : visible.length < fuel) :
    (nameBase ∉ visible →
        CreateUniqueIdentifier fuel visible m_idCtr nameBase = some (nameBase, m_idCtr)) ∧
      (nameBase ∈ visible →
        ∃ k, nameBase ++ to_string k ∉ visible ∧
          (∀ j < k, nameBase ++ to_string j ∈ visible) ∧
          CreateUniqueIdentifier fuel visible m_idCtr nameBase
            = some (nameBase ++ to_string k, m_idCtr)) := by
  have hcf := countedName_false_of_plain hplain
  obtain ⟨j, hjle, hseen, hfree, hloop⟩ := uniqueLoop_terminates visible nameBase [] 0
    (by positivity) (tryStr_plain_injective visible.length hlen)
  have hres : CreateUniqueIdentifier fuel visible m_idCtr nameBase
      = some (nameBase ++ tryStr [] 0 j, m_idCtr) := by
    simp only [CreateUniqueIdentifier, hcf, Bool.false_eq_true, if_false]
    rw [hloop fuel hfuel]
  constructor
  · intro hnot
    cases j with
    | zero => simpa [tryStr] using hres
    | succ k =>
      have h0 := hseen 0 (Nat.succ_pos _)
      simp only [tryStr, List.append_nil] at h0
      exact absurd h0 hnot
  · intro hin
    cases j with
    | zero =>
      simp only [tryStr, List.append_nil] at hfree
      exact absurd hin hfree
    | succ k =>
      have hk : (0 + k) % 2 ^ 64 = k := by
        rw [Nat.zero_add]
        exact Nat.mod_eq_of_lt (by omega)
      simp only [tryStr, hk] at hfree hres
      refine ⟨k, hfree, ?_, hres⟩
      intro i hi
      have hi2 := hseen (i + 1) (by omega)
      have hik : (0 + i) % 2 ^ 64 = i := by
        rw [Nat.zero_add]
        exact Nat.mod_eq_of_lt (by omega)
      simpa only [tryStr, hik] using hi2

/-- C10, for the prefix `_d_x` with `_d_x` and `_d_x0` visible (the result is
`_d_x1`) and for the prefix `y` (the result is `y`). -/
theorem CreateUniqueIdentifier_plain_witness :
    (∃ k, ['_', 'd', '_', 'x'] ++ to_string k ∉
          [['_', 'd', '_', 'x'], ['_', 'd', '_', 'x', '0']] ∧
        (∀ j < k, ['_', 'd', '_', 'x'] ++ to_string j ∈
          [['_', 'd', '_', 'x'], ['_', 'd', '_', 'x', '0']]) ∧
        CreateUniqueIdentifier 3 [['_', 'd', '_', 'x'], ['_', 'd', '_', 'x', '0']]
          (fun _ => 0) ['_', 'd', '_', 'x']
          = some (['_', 'd', '_', 'x'] ++ to_string k, fun _ => 0)) ∧
      CreateUniqueIdentifier 3 [['_', 'd', '_', 'x'], ['_', 'd', '_', 'x', '0']]
          (fun _ => 0) ['y'] = some (['y'], fun _ => 0) :=
  ⟨(CreateUniqueIdentifier_plain [['_', 'd', '_', 'x'], ['_', 'd', '_', 'x', '0']]
      (fun _ => 0) ['_', 'd', '_', 'x'] (Or.inr (Or.inl (by decide))) (by decide) 3
      (by decide)).2 (by decide),
    (CreateUniqueIdentifier_plain [['_', 'd', '_', 'x'], ['_', 'd', '_', 'x', '0']]
      (fun _ => 0) ['y'] (Or.inl (by decide)) (by decide) 3 (by decide)).1 (by decide)⟩

/-! ## CreateUniqueIdentifier: two calls, counted names -/

/-- The result for a name that is not counted. -/
theorem CreateUniqueIdentifier_plain_result (visible : List StringRef) (m_idCtr : IdCtr)
    (nameBase : StringRef) (hcf : countedName nameBase = false)
    (hlen : visible.length < 2 ^ 64) (fuel : Nat) (hfuel : visible.length < fuel) :
    (nameBase ∉ visible →
        CreateUniqueIdentifier fuel visible m_idCtr nameBase = some (nameBase, m_idCtr)) ∧
      (nameBase ∈ visible →
        ∃ k, nameBase ++ to_string k ∉ visible ∧
          (∀ j < k, nameBase ++ to_string j ∈ visible) ∧
          CreateUniqueIdentifier fuel visible m_idCtr nameBase
            = some (nameBase ++ to_string k, m_idCtr)) := by
  obtain ⟨j, hjle, hseen, hfree, hloop⟩ := uniqueLoop_terminates visible nameBase [] 0
    (by positivity) (tryStr_plain_injective visible.length hlen)
  have hres : CreateUniqueIdentifier fuel visible m_idCtr nameBase
      = some (nameBase ++ tryStr [] 0 j, m_idCtr) := by
    simp only [CreateUniqueIdentifier, hcf, Bool.false_eq_true, if_false]
    rw [hloop fuel hfuel]
  constructor
  · intro hnot
    cases j with
    | zero => simpa [tryStr] using hres
    | succ k =>
      have h0 := hseen 0 (Nat.succ_pos _)
      simp only [tryStr, List.append_nil] at h0
      exact absurd h0 hnot
  · intro hin
    cases j with
    | zero =>
      simp only [tryStr, List.append_nil] at hfree
      exact absurd hin hfree
    | succ k =>
      have hk : (0 + k) % 2 ^ 64 = k := by
        rw [Nat.zero_add]
        exact Nat.mod_eq_of_lt (by omega)
      simp only [tryStr, hk] at hfree hres
      refine ⟨k, hfree, ?_, hres⟩
      intro i hi
      have hi2 := hseen (i + 1) (by omega)
      have hik : (0 + i) % 2 ^ 64 = i := by
        rw [Nat.zero_add]
        exact Nat.mod_eq_of_lt (by omega)
      simpa only [tryStr, hik] using hi2

theorem countedName_true_of_reserved {nameBase : StringRef}
    (h : startswith nameBase ['_'] = true ∧ startswith nameBase ['_', 'd', '_'] = false ∧
      startswith nameBase ['_', 'd', 'e', 'l', 't', 'a', '_'] = false) :
    countedName nameBase = true := by
  unfold countedName
  simp [h.1, h.2.1, h.2.2]

theorem append_to_string_ne (nameBase : StringRef) (k : Nat) :
    nameBase ++ to_string k ≠ nameBase := by
  intro h
  have h2 : nameBase ++ to_string k = nameBase ++ [] := by simpa using h
  exact to_string_ne_nil k (List.append_cancel_left h2)

/-- The result for a counted name whose counter cannot wrap during the call. -/
theorem CreateUniqueIdentifier_counted_result (visible : List StringRef) (m_idCtr : IdCtr)
    (nameBase : StringRef) (hc : countedName nameBase = true)
    (hbound : m_idCtr nameBase + visible.length + 1 < 2 ^ 64)
    (fuel : Nat) (hfuel : visible.length < fuel) :
    ∃ n, m_idCtr nameBase ≤ n ∧ nameBase ++ to_string n ∉ visible ∧
      (∀ k, m_idCtr nameBase ≤ k → k < n → nameBase ++ to_string k ∈ visible) ∧
      CreateUniqueIdentifier fuel visible m_idCtr nameBase
        = some (nameBase ++ to_string n, Function.update m_idCtr nameBase (n + 1)) := by
  have hctr : m_idCtr nameBase < 2 ^ 64 := by omega
  have hlen : visible.length < 2 ^ 64 := by omega
  obtain ⟨j, hjle, hseen, hfree, hloop⟩ := uniqueLoop_terminates visible nameBase
    (to_string (m_idCtr nameBase)) ((m_idCtr nameBase + 1) % 2 ^ 64)
    (Nat.mod_lt _ (by positivity))
    (tryStr_counted_injective (m_idCtr nameBase) visible.length hctr hlen)
  have hmod : ∀ i, i ≤ j → (m_idCtr nameBase + i) % 2 ^ 64 = m_idCtr nameBase + i := by
    intro i hi
    exact Nat.mod_eq_of_lt (by omega)
  refine ⟨m_idCtr nameBase + j, Nat.le_add_right _ _, ?_, ?_, ?_⟩
  · rw [tryStr_counted _ hctr, hmod j (le_refl _)] at hfree
    exact hfree
  · intro k hk1 hk2
    have := hseen (k - m_idCtr nameBase) (by omega)
    rw [tryStr_counted _ hctr, hmod _ (by omega)] at this
    rw [show m_idCtr nameBase + (k - m_idCtr nameBase) = k by omega] at this
    exact this
  · simp only [CreateUniqueIdentifier, hc, if_true]
    rw [hloop fuel hfuel, tryStr_counted _ hctr, hmod j (le_refl _)]
    have hfin : ((m_idCtr nameBase + 1) % 2 ^ 64 + j) % 2 ^ 64 = m_idCtr nameBase + j + 1 := by
      rw [Nat.mod_add_mod]
      rw [show m_idCtr nameBase + 1 + j = m_idCtr nameBase + j + 1 by omega]
      exact Nat.mod_eq_of_lt (by omega)
    rw [hfin]

/-- C11 as stated fails: two calls of `CreateUniqueIdentifier` in sequence,
with the prefix `_d_x` free and nothing declared in between, both return the
bare `_d_x`; the second result is not a numbered name. -/
theorem CreateUniqueIdentifier_twice_same :
    (CreateUniqueIdentifier 1 [] (fun _ => 0) ['_', 'd', '_', 'x']).bind
      (fun r1 => (CreateUniqueIdentifier 1 [] r1.2 ['_', 'd', '_', 'x']).map
        (fun r2 => (r1.1, r2.1)))
      = some (['_', 'd', '_', 'x'], ['_', 'd', '_', 'x']) := by
  decide

/-- C11, amended: for a prefix that is not reserved and is free in the scope,
`CreateUniqueIdentifier` returns the bare prefix and leaves the scope and the
counters as they were (so that a second call at once returns the bare prefix
again). When the identifier is declared in between, as `BuildVarDecl` with
that prefix does, the next call returns a different name: the prefix followed
by the least `k` such that prefix+`k` is not visible. -/
theorem CreateUniqueIdentifier_after_declaration (visible : List StringRef) (m_idCtr : IdCtr)
    (nameBase : StringRef) (Ty : QualType) (Init : Option Expr)
    (hplain : startswith nameBase ['_'] = false ∨ startswith nameBase ['_', 'd', '_'] = true ∨
      startswith nameBase ['_', 'd', 'e', 'l', 't', 'a', '_'] = true)
    (hfree : nameBase ∉ visible) (hlen : visible.length + 1 < 2 ^ 64)
    (fuel : Nat) (hfuel : visible.length + 1 < fuel) :
    CreateUniqueIdentifier fuel visible m_idCtr nameBase = some (nameBase, m_idCtr) ∧
      BuildVarDeclUnique fuel visible m_idCtr Ty nameBase Init
        = some (⟨nameBase, Ty, Init⟩, nameBase :: visible, m_idCtr) ∧
      ∃ k, nameBase ++ to_string k ∉ visible ∧
        (∀ j < k, nameBase ++ to_string j ∈ visible) ∧
        nameBase ++ to_string k ≠ nameBase ∧
        CreateUniqueIdentifier fuel (nameBase :: visible) m_idCtr nameBase
          = some (nameBase ++ to_string k, m_idCtr) := by
  have hcf := countedName_false_of_plain hplain
  have h1 := (CreateUniqueIdentifier_plain_result visible m_idCtr nameBase hcf (by omega) fuel
    (by omega)).1 hfree
  refine ⟨h1, ?_, ?_⟩
  · simp only [BuildVarDeclUnique, h1, BuildVarDecl, PushOnScopeChains]
  · obtain ⟨k, hk, hmin, hres⟩ := (CreateUniqueIdentifier_plain_result (nameBase :: visible)
      m_idCtr nameBase hcf (by simpa using hlen) fuel (by simpa using hfuel)).2
      (List.mem_cons_self _ _)
    refine ⟨k, fun h => hk (List.mem_cons_of_mem _ h), ?_, append_to_string_ne _ _, hres⟩
    intro j hj
    rcases List.mem_cons.mp (hmin j hj) with h | h
    · exact absurd h (append_to_string_ne _ _)
    · exact h

/-- C11 amended, for the prefix `_d_x` in a scope where only `y` is visible:
the first name is `_d_x`, and once it is declared the next one is `_d_x0`. -/
theorem CreateUniqueIdentifier_after_declaration_witness :
    CreateUniqueIdentifier 3 [['y']] (fun _ => 0) ['_', 'd', '_', 'x']
        = some (['_', 'd', '_', 'x'], fun _ => 0) ∧
      BuildVarDeclUnique 3 [['y']] (fun _ => 0) (.program ['d', 'o', 'u', 'b', 'l', 'e'] true true)
          ['_', 'd', '_', 'x'] none
        = some (⟨['_', 'd', '_', 'x'], .program ['d', 'o', 'u', 'b', 'l', 'e'] true true, none⟩,
          [['_', 'd', '_', 'x'], ['y']], fun _ => 0) ∧
      ∃ k, ['_', 'd', '_', 'x'] ++ to_string k ∉ [['y']] ∧
        (∀ j < k, ['_', 'd', '_', 'x'] ++ to_string j ∈ [['y']]) ∧
        ['_', 'd', '_', 'x'] ++ to_string k ≠ ['_', 'd', '_', 'x'] ∧
        CreateUniqueIdentifier 3 [['_', 'd', '_', 'x'], ['y']] (fun _ => 0) ['_', 'd', '_', 'x']
          = some (['_', 'd', '_', 'x'] ++ to_string k, fun _ => 0) :=
  CreateUniqueIdentifier_after_declaration [['y']] (fun _ => 0) ['_', 'd', '_', 'x']
    (.program ['d', 'o', 'u', 'b', 'l', 'e'] true true) none (Or.inr (Or.inl (by decide)))
    (by decide) (by decide) 3 (by decide)

/-- C12: for a reserved prefix (it starts with `_` but not with `_d_` or
`_delta_`) whose counter `c` cannot wrap during the call,
`CreateUniqueIdentifier` returns prefix+`n`, never the bare prefix, where `n`
is the least number `>= c` such that prefix+`n` is not visible, and the
counter afterwards is `n + 1`. A later call with the same prefix, whatever is
visible then, returns prefix+`n2` with `n2 > n`. -/
theorem CreateUniqueIdentifier_counted (visible : List StringRef) (m_idCtr : IdCtr)
    (nameBase : StringRef)
    (hres : startswith nameBase ['_'] = true ∧ startswith nameBase ['_', 'd', '_'] = false ∧
      startswith nameBase ['_', 'd', 'e', 'l', 't', 'a', '_'] = false)
    (hbound : m_idCtr nameBase + visible.length + 1 < 2 ^ 64)
    (fuel : Nat) (hfuel : visible.length < fuel) :
    ∃ n, m_idCtr nameBase ≤ n ∧ nameBase ++ to_string n ∉ visible ∧
      (∀ k, m_idCtr nameBase ≤ k → k < n → nameBase ++ to_string k ∈ visible) ∧
      nameBase ++ to_string n ≠ nameBase ∧
      CreateUniqueIdentifier fuel visible m_idCtr nameBase
        = some (nameBase ++ to_string n, Function.update m_idCtr nameBase (n + 1)) ∧
      (Function.update m_idCtr nameBase (n + 1)) nameBase = n + 1 ∧
      ∀ (visible2 : List StringRef) (fuel2 : Nat), visible2.length < fuel2 →
        n + 1 + visible2.length + 1 < 2 ^ 64 →
        ∃ n2, n < n2 ∧
          CreateUniqueIdentifier fuel2 visible2 (Function.update m_idCtr nameBase (n + 1)) nameBase
            = some (nameBase ++ to_string n2,
              Function.update (Function.update m_idCtr nameBase (n + 1)) nameBase (n2 + 1)) := by
  have hc := countedName_true_of_reserved hres
  obtain ⟨n, hn, hfree, hmin, hcall⟩ :=
    CreateUniqueIdentifier_counted_result visible m_idCtr nameBase hc hbound fuel hfuel
  refine ⟨n, hn, hfree, hmin, append_to_string_ne _ _, hcall, Function.update_same _ _ _, ?_⟩
  intro visible2 fuel2 hfuel2 hbound2
  have hnew : (Function.update m_idCtr nameBase (n + 1)) nameBase = n + 1 :=
    Function.update_same _ _ _
  obtain ⟨n2, hn2, -, -, hcall2⟩ := CreateUniqueIdentifier_counted_result visible2
    (Function.update m_idCtr nameBase (n + 1)) nameBase hc (by rw [hnew]; exact hbound2)
    fuel2 hfuel2
  rw [hnew] at hn2
  exact ⟨n2, by omega, hcall2⟩

/-- C12, for the prefix `_t` with counter zero while `_t0` is visible: the
result is `_t1`. -/
theorem CreateUniqueIdentifier_counted_witness :
    (CreateUniqueIdentifier 2 [['_', 't', '0']] (fun _ => 0) ['_', 't']).map Prod.fst
        = some ['_', 't', '1'] ∧
      ∃ n, (fun _ => 0 : IdCtr) ['_', 't'] ≤ n ∧ ['_', 't'] ++ to_string n ∉ [['_', 't', '0']] ∧
        (∀ k, (fun _ => 0 : IdCtr) ['_', 't'] ≤ k → k < n →
          ['_', 't'] ++ to_string k ∈ [['_', 't', '0']]) ∧
        ['_', 't'] ++ to_string n ≠ ['_', 't'] ∧
        CreateUniqueIdentifier 2 [['_', 't', '0']] (fun _ => 0) ['_', 't']
          = some (['_', 't'] ++ to_string n, Function.update (fun _ => 0) ['_', 't'] (n + 1)) ∧
        (Function.update (fun _ => 0 : IdCtr) ['_', 't'] (n + 1)) ['_', 't'] = n + 1 ∧
        ∀ (visible2 : List StringRef) (fuel2 : Nat), visible2.length < fuel2 →
          n + 1 + visible2.length + 1 < 2 ^ 64 →
          ∃ n2, n < n2 ∧
            CreateUniqueIdentifier fuel2 visible2 (Function.update (fun _ => 0) ['_', 't'] (n + 1))
                ['_', 't']
              = some (['_', 't'] ++ to_string n2,
                Function.update (Function.update (fun _ => 0) ['_', 't'] (n + 1)) ['_', 't']
                  (n2 + 1)) :=
  ⟨by decide,
    CreateUniqueIdentifier_counted [['_', 't', '0']] (fun _ => 0) ['_', 't']
      ⟨by decide, by decide, by decide⟩ (by decide) 2 (by decide)⟩

/-! ## UsefulToStore: auxiliary facts -/

theorem UsefulToStore_paren (sub : Expr) :
    UsefulToStore (some (.ParenExpr sub)) = UsefulToStore (some sub) := by
  rw [UsefulToStore, UsefulToStore]
  simp only [IgnoreParenImpCasts]

theorem UsefulToStore_implicitCast (sub : Expr) :
    UsefulToStore (some (.ImplicitCastExpr sub)) = UsefulToStore (some sub) := by
  rw [UsefulToStore, UsefulToStore]
  simp only [IgnoreParenImpCasts]

theorem UsefulToStore_extension (sub : Expr) :
    UsefulToStore (some (.UnaryOperator .UO_Extension sub)) = UsefulToStore (some sub) := by
  rw [UsefulToStore, UsefulToStore]
  simp only [IgnoreParenImpCasts]

theorem IgnoreParenImpCasts_unaryOperator (op : UnaryOperatorKind) (sub : Expr)
    (h : op ≠ .UO_Extension) :
    IgnoreParenImpCasts (.UnaryOperator op sub) = .UnaryOperator op sub := by
  cases op <;> first | rfl | exact absurd rfl h

theorem UsefulToStore_unaryOperator (op : UnaryOperatorKind) (sub : Expr)
    (h : op ≠ .UO_Extension) :
    UsefulToStore (some (.UnaryOperator op sub)) =
      if op = .UO_Plus ∨ op = .UO_Minus then UsefulToStore (some sub) else false := by
  cases op
  case UO_Extension => exact absurd rfl h
  all_goals
    rw [UsefulToStore]
    simp only [IgnoreParenImpCasts]

theorem UsefulToStore_arraySubscript (base idx : Expr) :
    UsefulToStore (some (.ArraySubscriptExpr base idx)) =
      (UsefulToStore (some base) || UsefulToStore (some idx)) := by
  rw [UsefulToStore]
  simp only [IgnoreParenImpCasts]

/-- `UsefulToStore` decides on the stripped expression. -/
theorem UsefulToStore_strip : ∀ E : Expr,
    UsefulToStore (some E) = UsefulToStore (some (IgnoreParenImpCasts E))
  | .ParenExpr sub => by
    rw [UsefulToStore_paren, UsefulToStore_strip sub]
    simp only [IgnoreParenImpCasts]
  | .ImplicitCastExpr sub => by
    rw [UsefulToStore_implicitCast, UsefulToStore_strip sub]
    simp only [IgnoreParenImpCasts]
  | .UnaryOperator op sub => by
    by_cases h : op = .UO_Extension
    · subst h
      rw [UsefulToStore_extension, UsefulToStore_strip sub]
      simp only [IgnoreParenImpCasts]
    · rw [IgnoreParenImpCasts_unaryOperator op sub h]
  | .DeclRefExpr _ | .IntegerLiteral _ | .FloatingLiteral _ | .CXXBoolLiteralExpr _
  | .CharacterLiteral _ | .StringLiteral _ | .BinaryOperator _ _ _
  | .ConditionalOperator _ _ _ | .ArraySubscriptExpr _ _ | .CallExpr _ _ | .InitListExpr _ => by
    simp only [IgnoreParenImpCasts]

theorem UsefulToStore_wrap (ws : List Wrapper) (x : Expr) :
    UsefulToStore (some (wrap ws x)) = UsefulToStore (some x) := by
  induction ws with
  | nil => rfl
  | cons w ws ih =>
    cases w with
    | plus =>
      simp only [wrap]
      rw [UsefulToStore_unaryOperator _ _ (by decide), if_pos (Or.inl rfl), ih]
    | minus =>
      simp only [wrap]
      rw [UsefulToStore_unaryOperator _ _ (by decide), if_pos (Or.inr rfl), ih]
    | paren => simp only [wrap, UsefulToStore_paren, ih]
    | implicitCast => simp only [wrap, UsefulToStore_implicitCast, ih]
    | extension => simp only [wrap, UsefulToStore_extension, ih]

/-- What `UsefulToStore` answers for the leaves: for an expression that,
below its parentheses and implicit conversions, is a variable reference, an
integer literal or a floating literal, it is false; for one that is a boolean,
character or string literal there, it is true. -/
theorem UsefulToStore_literals (E : Expr) :
    (∀ name, IgnoreParenImpCasts E = .DeclRefExpr name → UsefulToStore (some E) = false) ∧
      (∀ v, IgnoreParenImpCasts E = .IntegerLiteral v → UsefulToStore (some E) = false) ∧
      (∀ t, IgnoreParenImpCasts E = .FloatingLiteral t → UsefulToStore (some E) = false) ∧
      (∀ b, IgnoreParenImpCasts E = .CXXBoolLiteralExpr b → UsefulToStore (some E) = true) ∧
      (∀ c, IgnoreParenImpCasts E = .CharacterLiteral c → UsefulToStore (some E) = true) ∧
      (∀ t, IgnoreParenImpCasts E = .StringLiteral t → UsefulToStore (some E) = true) := by
  refine ⟨?_, ?_, ?_, ?_, ?_, ?_⟩ <;>
  · intro v h
    rw [UsefulToStore_strip, h, UsefulToStore]
    simp only [IgnoreParenImpCasts]

theorem UsefulToStore_callExpr (callee : Expr) (args : List Expr) :
    UsefulToStore (some (.CallExpr callee args)) = true := by
  rw [UsefulToStore]
  simp only [IgnoreParenImpCasts]

/-! ## UsefulToStore: the claims -/

/-- C13: the code at the boolean literal `true`, the character literal `'a'`
and the string literal `"s"`, bare or inside parentheses and an implicit
conversion: `UsefulToStore` answers true, where the claim says false. For a
variable reference, an integer literal and a floating literal it answers
false. -/
theorem UsefulToStore_other_literals :
    UsefulToStore (some (.CXXBoolLiteralExpr true)) = true ∧
      UsefulToStore (some (.CharacterLiteral 97)) = true ∧
      UsefulToStore (some (.StringLiteral ['s'])) = true ∧
      UsefulToStore (some (.ParenExpr (.ImplicitCastExpr (.CXXBoolLiteralExpr false)))) = true ∧
      UsefulToStore (some (.ParenExpr (.DeclRefExpr ['x']))) = false ∧
      UsefulToStore (some (.ImplicitCastExpr (.IntegerLiteral 1))) = false ∧
      UsefulToStore (some (.FloatingLiteral ['1', '.', '0'])) = false :=
  ⟨(UsefulToStore_literals _).2.2.2.1 true rfl,
    (UsefulToStore_literals _).2.2.2.2.1 97 rfl,
    (UsefulToStore_literals _).2.2.2.2.2 ['s'] rfl,
    (UsefulToStore_literals _).2.2.2.1 false rfl,
    (UsefulToStore_literals _).1 ['x'] rfl,
    (UsefulToStore_literals _).2.1 1 rfl,
    (UsefulToStore_literals _).2.2.1 ['1', '.', '0'] rfl⟩

/-- C14 as stated fails at the unary operator `__extension__`, which is
neither plus nor minus: `IgnoreParenImpCasts` in line 400 looks through it,
so for the call `f()` the code sees the call and `UsefulToStore(__extension__ f())`
is true, where the claim says false. -/
theorem UsefulToStore_extension_call :
    UnaryOperatorKind.UO_Extension ≠ .UO_Plus ∧ UnaryOperatorKind.UO_Extension ≠ .UO_Minus ∧
      UsefulToStore (some (.UnaryOperator .UO_Extension (.CallExpr (.DeclRefExpr ['f']) [])))
        = true := by
  refine ⟨by decide, by decide, ?_⟩
  rw [UsefulToStore_extension, UsefulToStore_callExpr]

/-- C14, amended: `UsefulToStore(+x) = UsefulToStore(-x) = UsefulToStore(x)` for
every expression `x`, also through any nesting of unary plus, unary minus,
parentheses, implicit conversions and `__extension__`; `__extension__ x` is
looked through like a parenthesis, `UsefulToStore(__extension__ x) = UsefulToStore(x)`;
for every unary operator other than plus, minus and `__extension__`, and
every operand, `UsefulToStore` is false. -/
theorem UsefulToStore_unary :
    (∀ x : Expr, UsefulToStore (some (.UnaryOperator .UO_Plus x)) = UsefulToStore (some x) ∧
        UsefulToStore (some (.UnaryOperator .UO_Minus x)) = UsefulToStore (some x)) ∧
      (∀ (ws : List Wrapper) (x : Expr),
        UsefulToStore (some (wrap ws x)) = UsefulToStore (some x)) ∧
      (∀ x : Expr,
        UsefulToStore (some (.UnaryOperator .UO_Extension x)) = UsefulToStore (some x)) ∧
      (∀ (op : UnaryOperatorKind) (x : Expr), op ≠ .UO_Plus → op ≠ .UO_Minus →
        op ≠ .UO_Extension →
        UsefulToStore (some (.UnaryOperator op x)) = false ∧
        UsefulToStore (some (.ParenExpr (.UnaryOperator op x))) = false) := by
  refine ⟨fun x => ⟨?_, ?_⟩, UsefulToStore_wrap, UsefulToStore_extension, ?_⟩
  · rw [UsefulToStore_unaryOperator _ _ (by decide), if_pos (Or.inl rfl)]
  · rw [UsefulToStore_unaryOperator _ _ (by decide), if_pos (Or.inr rfl)]
  · intro op x h1 h2 h3
    have h : ¬ (op = .UO_Plus ∨ op = .UO_Minus) := by
      rintro (h | h)
      · exact h1 h
      · exact h2 h
    rw [UsefulToStore_paren, UsefulToStore_unaryOperator _ _ h3, if_neg h]
    exact ⟨rfl, rfl⟩

/-- C14 amended, for the call `f()`: it is worth storing, so are `-(+f())` and
`__extension__ f()`, and `!f()` is not. -/
theorem UsefulToStore_unary_witness :
    UsefulToStore (some (.CallExpr (.DeclRefExpr ['f']) [])) = true ∧
      UsefulToStore (some (wrap [.minus, .paren, .plus] (.CallExpr (.DeclRefExpr ['f']) [])))
        = UsefulToStore (some (.CallExpr (.DeclRefExpr ['f']) [])) ∧
      UsefulToStore (some (.UnaryOperator .UO_Extension (.CallExpr (.DeclRefExpr ['f']) [])))
        = UsefulToStore (some (.CallExpr (.DeclRefExpr ['f']) [])) ∧
      UsefulToStore (some (.UnaryOperator .UO_LNot (.CallExpr (.DeclRefExpr ['f']) [])))
        = false ∧
      UsefulToStore (some (.ParenExpr (.UnaryOperator .UO_LNot (.CallExpr (.DeclRefExpr ['f']) []))))
        = false :=
  ⟨UsefulToStore_callExpr _ _, UsefulToStore_unary.2.1 _ _, UsefulToStore_unary.2.2.1 _,
    (UsefulToStore_unary.2.2.2 .UO_LNot _ (by decide) (by decide) (by decide)).1,
    (UsefulToStore_unary.2.2.2 .UO_LNot _ (by decide) (by decide) (by decide)).2⟩

/-! ## SplitArraySubscript and BuildArraySubscript -/

theorem splitLoop_subscript (base idx : Expr) (Indices : List Expr) :
    splitLoop (.ArraySubscriptExpr base idx) Indices =
      splitLoop (IgnoreParenImpCasts base) (Indices ++ [idx]) := by
  rw [splitLoop]

theorem splitLoop_other (E : Expr) (Indices : List Expr)
    (h : ∀ base idx, E ≠ .ArraySubscriptExpr base idx) : splitLoop E Indices = (E, Indices) := by
  cases E with
  | ArraySubscriptExpr base idx => exact absurd rfl (h base idx)
  | _ =>
    rw [splitLoop]
    exact h

theorem IgnoreParenImpCasts_self (E : Expr) (h2 : ∀ e, E ≠ .ParenExpr e)
    (h3 : ∀ e, E ≠ .ImplicitCastExpr e) (h4 : ∀ e, E ≠ .UnaryOperator .UO_Extension e) :
    IgnoreParenImpCasts E = E := by
  cases E with
  | ParenExpr e => exact absurd rfl (h2 e)
  | ImplicitCastExpr e => exact absurd rfl (h3 e)
  | UnaryOperator op e =>
    exact IgnoreParenImpCasts_unaryOperator op e (fun h => h4 e (by rw [h]))
  | _ => rfl

theorem IgnoreParenImpCasts_conversion (converts : Expr → Bool) (E : Expr) :
    IgnoreParenImpCasts (DefaultFunctionArrayLvalueConversion converts E)
      = IgnoreParenImpCasts E := by
  unfold DefaultFunctionArrayLvalueConversion
  split
  · simp only [IgnoreParenImpCasts]
  · rfl

theorem splitLoop_BuildArraySubscript (converts : Expr → Bool)
    (B : Expr) (hB1 : ∀ b i, B ≠ .ArraySubscriptExpr b i) (hB2 : ∀ e, B ≠ .ParenExpr e)
    (hB3 : ∀ e, B ≠ .ImplicitCastExpr e) (hB4 : ∀ e, B ≠ .UnaryOperator .UO_Extension e)
    (I : List Expr) :
    ∀ acc : List Expr,
      splitLoop (IgnoreParenImpCasts (BuildArraySubscript converts B I)) acc
        = (B, acc ++ (I.map (DefaultFunctionArrayLvalueConversion converts)).reverse) := by
  induction I using List.reverseRecOn with
  | nil =>
    intro acc
    simp only [BuildArraySubscript, List.foldl_nil, List.map_nil, List.reverse_nil,
      List.append_nil]
    rw [IgnoreParenImpCasts_self B hB2 hB3 hB4, splitLoop_other B acc hB1]
  | append_singleton l a ih =>
    intro acc
    simp only [BuildArraySubscript, List.foldl_append, List.foldl_cons, List.foldl_nil,
      CreateBuiltinArraySubscriptExpr]
    simp only [IgnoreParenImpCasts]
    rw [splitLoop_subscript, IgnoreParenImpCasts_conversion]
    have := ih (acc ++ [DefaultFunctionArrayLvalueConversion converts a])
    simp only [BuildArraySubscript, CreateBuiltinArraySubscriptExpr] at this
    rw [this]
    simp

theorem SplitArraySubscript_BuildArraySubscript_eq (converts : Expr → Bool)
    (B : Expr) (hB1 : ∀ b i, B ≠ .ArraySubscriptExpr b i) (hB2 : ∀ e, B ≠ .ParenExpr e)
    (hB3 : ∀ e, B ≠ .ImplicitCastExpr e) (hB4 : ∀ e, B ≠ .UnaryOperator .UO_Extension e)
    (I : List Expr) :
    SplitArraySubscript (BuildArraySubscript converts B I)
      = (B, I.map (DefaultFunctionArrayLvalueConversion converts)) := by
  simp only [SplitArraySubscript]
  rw [splitLoop_BuildArraySubscript converts B hB1 hB2 hB3 hB4 I []]
  simp

theorem SplitArraySubscript_of_not_subscript (E : Expr)
    (hE : ∀ b i, IgnoreParenImpCasts E ≠ .ArraySubscriptExpr b i) :
    SplitArraySubscript E = (IgnoreParenImpCasts E, []) := by
  simp only [SplitArraySubscript]
  rw [splitLoop_other _ [] hE]
  rfl

/-- C17 as stated fails. The builder of the host compiler loads an index
that is an lvalue: for the base `a` and the index `i`, both variables, the
node built is `a[i]` with `i` under an implicit conversion, and splitting it
returns that converted index, not `i`. And a base `__extension__ a`, which is
not an element access, a parenthesis or an implicit conversion, comes back as
`a`: lines 474 and 477 strip the marker. -/
theorem SplitArraySubscript_not_inverse :
    SplitArraySubscript (BuildArraySubscript variablesConvert (.DeclRefExpr ['a'])
        [.DeclRefExpr ['i']])
        = (.DeclRefExpr ['a'], [.ImplicitCastExpr (.DeclRefExpr ['i'])]) ∧
      SplitArraySubscript (BuildArraySubscript variablesConvert (.DeclRefExpr ['a'])
        [.DeclRefExpr ['i']])
        ≠ (.DeclRefExpr ['a'], [.DeclRefExpr ['i']]) ∧
      SplitArraySubscript (BuildArraySubscript variablesConvert
        (.UnaryOperator .UO_Extension (.DeclRefExpr ['a'])) [])
        = (.DeclRefExpr ['a'], []) ∧
      SplitArraySubscript (BuildArraySubscript variablesConvert
        (.UnaryOperator .UO_Extension (.DeclRefExpr ['a'])) [])
        ≠ (.UnaryOperator .UO_Extension (.DeclRefExpr ['a']), []) := by
  have h1 : SplitArraySubscript (BuildArraySubscript variablesConvert (.DeclRefExpr ['a'])
      [.DeclRefExpr ['i']])
      = (.DeclRefExpr ['a'], [.ImplicitCastExpr (.DeclRefExpr ['i'])]) :=
    SplitArraySubscript_BuildArraySubscript_eq variablesConvert (.DeclRefExpr ['a'])
      (fun _ _ h => Expr.noConfusion h) (fun _ h => Expr.noConfusion h)
      (fun _ h => Expr.noConfusion h) (fun _ h => Expr.noConfusion h) [.DeclRefExpr ['i']]
  have h2 : SplitArraySubscript (BuildArraySubscript variablesConvert
      (.UnaryOperator .UO_Extension (.DeclRefExpr ['a'])) [])
      = (.DeclRefExpr ['a'], []) :=
    SplitArraySubscript_of_not_subscript _ (fun _ _ h => Expr.noConfusion h)
  refine ⟨h1, ?_, h2, ?_⟩
  · rw [h1]
    intro h
    cases h
  · rw [h2]
    intro h
    cases h

/-- C17, amended: for every base `B` that is not an element access, a
parenthesis, an implicit conversion or an `__extension__` expression, and
every list `I` of indices, `SplitArraySubscript(BuildArraySubscript(B, I))`
returns the base `B` and the indices in the same order and number, each as
the node holds it, that is after the default conversion of the host compiler;
the result is `(B, I)` when no index needs that conversion. Such a `B` itself
is returned with no index, and every expression that is not an element access
below its parentheses, conversions and `__extension__` markers is returned
stripped of them with no index. -/
theorem SplitArraySubscript_BuildArraySubscript (converts : Expr → Bool)
    (B : Expr) (hB1 : ∀ b i, B ≠ .ArraySubscriptExpr b i) (hB2 : ∀ e, B ≠ .ParenExpr e)
    (hB3 : ∀ e, B ≠ .ImplicitCastExpr e) (hB4 : ∀ e, B ≠ .UnaryOperator .UO_Extension e)
    (I : List Expr) :
    SplitArraySubscript (BuildArraySubscript converts B I)
        = (B, I.map (DefaultFunctionArrayLvalueConversion converts)) ∧
      (SplitArraySubscript (BuildArraySubscript converts B I)).2.length = I.length ∧
      ((∀ i ∈ I, converts i = false) →
        SplitArraySubscript (BuildArraySubscript converts B I) = (B, I)) ∧
      SplitArraySubscript B = (B, []) ∧
      ∀ E : Expr, (∀ b i, IgnoreParenImpCasts E ≠ .ArraySubscriptExpr b i) →
        SplitArraySubscript E = (IgnoreParenImpCasts E, []) := by
  have h1 := SplitArraySubscript_BuildArraySubscript_eq converts B hB1 hB2 hB3 hB4 I
  refine ⟨h1, by rw [h1]; simp, ?_, ?_, SplitArraySubscript_of_not_subscript⟩
  · intro hI
    rw [h1]
    congr 1
    have : ∀ i ∈ I, DefaultFunctionArrayLvalueConversion converts i = i := by
      intro i hi
      simp [DefaultFunctionArrayLvalueConversion, hI i hi]
    rw [List.map_congr_left this, List.map_id']
  · have := SplitArraySubscript_of_not_subscript B
      (by rw [IgnoreParenImpCasts_self B hB2 hB3 hB4]; exact hB1)
    rw [IgnoreParenImpCasts_self B hB2 hB3 hB4] at this
    exact this

/-- C17 amended, for the variable `a` as base: with the indices `1` and `i`
the index `i`, a variable, comes back under its conversion; with the indices
`1` and the converted `i` the list comes back as it was given. -/
theorem SplitArraySubscript_BuildArraySubscript_witness :
    SplitArraySubscript (BuildArraySubscript variablesConvert (.DeclRefExpr ['a'])
        [.IntegerLiteral 1, .DeclRefExpr ['i']])
        = (.DeclRefExpr ['a'], [.IntegerLiteral 1, .ImplicitCastExpr (.DeclRefExpr ['i'])]) ∧
      SplitArraySubscript (BuildArraySubscript variablesConvert (.DeclRefExpr ['a'])
        [.IntegerLiteral 1, .ImplicitCastExpr (.DeclRefExpr ['i'])])
        = (.DeclRefExpr ['a'], [.IntegerLiteral 1, .ImplicitCastExpr (.DeclRefExpr ['i'])]) ∧
      BuildArraySubscript variablesConvert (.DeclRefExpr ['a'])
        [.IntegerLiteral 1, .DeclRefExpr ['i']]
        = .ArraySubscriptExpr (.ArraySubscriptExpr
            (.ImplicitCastExpr (.DeclRefExpr ['a'])) (.IntegerLiteral 1))
            (.ImplicitCastExpr (.DeclRefExpr ['i'])) ∧
      SplitArraySubscript (.DeclRefExpr ['a']) = (.DeclRefExpr ['a'], []) :=
  ⟨(SplitArraySubscript_BuildArraySubscript variablesConvert (.DeclRefExpr ['a'])
      (fun _ _ h => Expr.noConfusion h) (fun _ h => Expr.noConfusion h)
      (fun _ h => Expr.noConfusion h) (fun _ h => Expr.noConfusion h)
      [.IntegerLiteral 1, .DeclRefExpr ['i']]).1,
    (SplitArraySubscript_BuildArraySubscript variablesConvert (.DeclRefExpr ['a'])
      (fun _ _ h => Expr.noConfusion h) (fun _ h => Expr.noConfusion h)
      (fun _ h => Expr.noConfusion h) (fun _ h => Expr.noConfusion h)
      [.IntegerLiteral 1, .ImplicitCastExpr (.DeclRefExpr ['i'])]).2.2.1
      (by
        intro i hi
        rcases List.mem_cons.mp hi with h | h
        · rw [h]
          rfl
        · rw [List.mem_singleton.mp h]
          rfl),
    rfl,
    (SplitArraySubscript_BuildArraySubscript variablesConvert (.DeclRefExpr ['a'])
      (fun _ _ h => Expr.noConfusion h) (fun _ h => Expr.noConfusion h)
      (fun _ h => Expr.noConfusion h) (fun _ h => Expr.noConfusion h)
      [.IntegerLiteral 1, .DeclRefExpr ['i']]).2.2.2.1⟩

/-! ## The numerical fallback -/

theorem pushLoop_spec (TapeRef : Expr) (args outputArgs : List Expr) :
    ∀ (n i : Nat) (stmts : List Stmt) (NumDiffArgs : List Expr),
      i + n ≤ args.length → i + n ≤ outputArgs.length →
      pushLoop TapeRef args outputArgs n i stmts NumDiffArgs =
        some (stmts ++ ((outputArgs.drop i).take n).map
            (fun out => Stmt.ofExpr (.CallExpr PushDRE [TapeRef, out])),
          NumDiffArgs ++ (args.drop i).take n) := by
  intro n
  induction n with
  | zero =>
    intro i stmts NumDiffArgs _ _
    simp [pushLoop]
  | succ n ih =>
    intro i stmts NumDiffArgs ha ho
    have hia : i < args.length := by omega
    have hio : i < outputArgs.length := by omega
    have e1 : (outputArgs.drop i).take (n + 1)
        = outputArgs[i] :: (outputArgs.drop (i + 1)).take n := by
      rw [List.drop_eq_getElem_cons hio, List.take_succ_cons]
    have e2 : (args.drop i).take (n + 1) = args[i] :: (args.drop (i + 1)).take n := by
      rw [List.drop_eq_getElem_cons hia, List.take_succ_cons]
    simp only [pushLoop, List.getElem?_eq_getElem hia, List.getElem?_eq_getElem hio]
    rw [ih (i + 1) _ _ (by omega) (by omega), e1, e2]
    simp only [List.map_cons, List.append_assoc, List.singleton_append]

/-- C16: `GetSingleArgCentralDiffCall` returns no expression, and puts no
query to the overload resolver, when the type of the target argument is not
arithmetic; when it is, the result is the resolver's answer for the name
`forward_central_difference` and the arguments `targetFuncCall`, `targetArg`,
the literal `targetPos`, the literal of the print-error setting, and then the
first `numArgs` elements of `args`, and this is the only query. -/
theorem GetSingleArgCentralDiffCall_spec (getType : Expr → QualType)
    (shouldPrintNumDiffErrs : Bool) (findOverloadedDefinition : OverloadQuery → Option Expr)
    (targetFuncCall targetArg : Expr) (targetPos numArgs : Nat) (args : List Expr) :
    ((getType targetArg).isArithmeticType = false →
        GetSingleArgCentralDiffCall getType shouldPrintNumDiffErrs findOverloadedDefinition
          targetFuncCall targetArg targetPos numArgs args = (none, [])) ∧
      ((getType targetArg).isArithmeticType = true →
        GetSingleArgCentralDiffCall getType shouldPrintNumDiffErrs findOverloadedDefinition
          targetFuncCall targetArg targetPos numArgs args =
        (findOverloadedDefinition (forwardCentralDifferenceName,
            [targetFuncCall, targetArg, .IntegerLiteral targetPos,
              .IntegerLiteral (if shouldPrintNumDiffErrs then 1 else 0)] ++ args.take numArgs),
          [(forwardCentralDifferenceName,
            [targetFuncCall, targetArg, .IntegerLiteral targetPos,
              .IntegerLiteral (if shouldPrintNumDiffErrs then 1 else 0)] ++ args.take numArgs)])) ∧
      String.mk forwardCentralDifferenceName = "forward_central_difference" := by
  refine ⟨?_, ?_, by decide⟩
  · intro h
    simp [GetSingleArgCentralDiffCall, h]
  · intro h
    simp [GetSingleArgCentralDiffCall, h, synthesizeLiteral]

/-- C16, for the call `f(x, y)` differentiated in `x`, with a resolver that
answers with the call it is asked for: once for an argument of type `double`,
once for an argument of a class type. -/
theorem GetSingleArgCentralDiffCall_spec_witness :
    GetSingleArgCentralDiffCall (fun _ => .program ['d', 'o', 'u', 'b', 'l', 'e'] true true) true
        (fun q => some (.CallExpr (.DeclRefExpr q.1) q.2))
        (.CallExpr (.DeclRefExpr ['f']) [.DeclRefExpr ['x'], .DeclRefExpr ['y']])
        (.DeclRefExpr ['x']) 0 2 [.DeclRefExpr ['x'], .DeclRefExpr ['y'], .DeclRefExpr ['z']]
      = (some (.CallExpr (.DeclRefExpr forwardCentralDifferenceName)
          [.CallExpr (.DeclRefExpr ['f']) [.DeclRefExpr ['x'], .DeclRefExpr ['y']],
            .DeclRefExpr ['x'], .IntegerLiteral 0, .IntegerLiteral 1,
            .DeclRefExpr ['x'], .DeclRefExpr ['y']]),
        [(forwardCentralDifferenceName,
          [.CallExpr (.DeclRefExpr ['f']) [.DeclRefExpr ['x'], .DeclRefExpr ['y']],
            .DeclRefExpr ['x'], .IntegerLiteral 0, .IntegerLiteral 1,
            .DeclRefExpr ['x'], .DeclRefExpr ['y']])]) ∧
      GetSingleArgCentralDiffCall (fun _ => GetCladArrayRefOfType
          (.program ['d', 'o', 'u', 'b', 'l', 'e'] true true)) true
        (fun q => some (.CallExpr (.DeclRefExpr q.1) q.2))
        (.CallExpr (.DeclRefExpr ['f']) [.DeclRefExpr ['x'], .DeclRefExpr ['y']])
        (.DeclRefExpr ['x']) 0 2 [.DeclRefExpr ['x'], .DeclRefExpr ['y'], .DeclRefExpr ['z']]
      = (none, []) :=
  ⟨(GetSingleArgCentralDiffCall_spec (fun _ => .program ['d', 'o', 'u', 'b', 'l', 'e'] true true)
      true (fun q => some (.CallExpr (.DeclRefExpr q.1) q.2))
      (.CallExpr (.DeclRefExpr ['f']) [.DeclRefExpr ['x'], .DeclRefExpr ['y']])
      (.DeclRefExpr ['x']) 0 2 [.DeclRefExpr ['x'], .DeclRefExpr ['y'], .DeclRefExpr ['z']]).2.1
      rfl,
    (GetSingleArgCentralDiffCall_spec (fun _ => GetCladArrayRefOfType
        (.program ['d', 'o', 'u', 'b', 'l', 'e'] true true))
      true (fun q => some (.CallExpr (.DeclRefExpr q.1) q.2))
      (.CallExpr (.DeclRefExpr ['f']) [.DeclRefExpr ['x'], .DeclRefExpr ['y']])
      (.DeclRefExpr ['x']) 0 2 [.DeclRefExpr ['x'], .DeclRefExpr ['y'], .DeclRefExpr ['z']]).1
      rfl⟩

/-- C15 as stated fails. For the call `f(x, y)` with the two output slots
`dx` and `dy` and a resolver that answers with the call it is asked for, the
statement list holds three statements, the tape declaration and the two
pushes; the call of `central_difference` is the value returned and is not in
the list. -/
theorem GetMultiArgCentralDiffCall_call_not_emitted :
    (GetMultiArgCentralDiffCall 1 ['_', 't'] false
        (fun q => some (.CallExpr (.DeclRefExpr q.1) q.2)) [] (fun _ => 0)
        (.CallExpr (.DeclRefExpr ['f']) [.DeclRefExpr ['x'], .DeclRefExpr ['y']])
        (.program ['d', 'o', 'u', 'b', 'l', 'e'] true true) 2 []
        [.DeclRefExpr ['x'], .DeclRefExpr ['y']]
        [.DeclRefExpr ['d', 'x'], .DeclRefExpr ['d', 'y']]).map
      (fun r => (r.NumericalDiffMultiArg, r.NumericalDiffMultiArg.length, r.call))
    = some
      ([Stmt.DeclStmt ⟨['_', 't', '0'],
          GetCladTapeOfType (GetCladArrayRefOfType
            (.program ['d', 'o', 'u', 'b', 'l', 'e'] true true)),
          some (.InitListExpr [])⟩,
        Stmt.ofExpr (.CallExpr PushDRE [.DeclRefExpr ['_', 't', '0'], .DeclRefExpr ['d', 'x']]),
        Stmt.ofExpr (.CallExpr PushDRE [.DeclRefExpr ['_', 't', '0'], .DeclRefExpr ['d', 'y']])],
      3,
      some (.CallExpr (.DeclRefExpr centralDifferenceName)
        [.CallExpr (.DeclRefExpr ['f']) [.DeclRefExpr ['x'], .DeclRefExpr ['y']],
          .DeclRefExpr ['_', 't', '0'], .IntegerLiteral 0,
          .DeclRefExpr ['x'], .DeclRefExpr ['y']])) := by
  rfl

/-- `CreateUniqueIdentifier` returns: every number of rounds above the number
of visible names gives the same identifier, which is not visible. -/
theorem CreateUniqueIdentifier_total (visible : List StringRef) (m_idCtr : IdCtr)
    (nameBase : StringRef) (hlen : visible.length < 2 ^ 64)
    (hctr : m_idCtr nameBase < 2 ^ 64) :
    ∃ name ctr,
      (∀ fuel, visible.length < fuel →
        CreateUniqueIdentifier fuel visible m_idCtr nameBase = some (name, ctr)) ∧
      name ∉ visible := by
  by_cases hcn : countedName nameBase = true
  · obtain ⟨j, -, -, hfree, hloop⟩ := uniqueLoop_terminates visible nameBase
      (to_string (m_idCtr nameBase)) ((m_idCtr nameBase + 1) % 2 ^ 64)
      (Nat.mod_lt _ (by positivity))
      (tryStr_counted_injective (m_idCtr nameBase) visible.length hctr hlen)
    refine ⟨nameBase ++ tryStr (to_string (m_idCtr nameBase))
        ((m_idCtr nameBase + 1) % 2 ^ 64) j,
      Function.update m_idCtr nameBase (((m_idCtr nameBase + 1) % 2 ^ 64 + j) % 2 ^ 64),
      fun fuel hfuel => ?_, hfree⟩
    simp only [CreateUniqueIdentifier, hcn, if_true]
    rw [hloop fuel hfuel]
  · have hcf : countedName nameBase = false := by
      cases h : countedName nameBase
      · rfl
      · exact absurd h hcn
    obtain ⟨j, -, -, hfree, hloop⟩ := uniqueLoop_terminates visible nameBase [] 0
      (by positivity) (tryStr_plain_injective visible.length hlen)
    refine ⟨nameBase ++ tryStr [] 0 j, m_idCtr, fun fuel hfuel => ?_, hfree⟩
    simp only [CreateUniqueIdentifier, hcf, Bool.false_eq_true, if_false]
    rw [hloop fuel hfuel]

/-- What `GetMultiArgCentralDiffCall` does once `CreateUniqueIdentifier` has
returned the name of the tape variable. -/
theorem GetMultiArgCentralDiffCall_of_identifier (fuel : Nat) (defaultBase : StringRef)
    (shouldPrintNumDiffErrs : Bool) (findOverloadedDefinition : OverloadQuery → Option Expr)
    (visible : List StringRef) (m_idCtr : IdCtr)
    (targetFuncCall : Expr) (retType : QualType) (numArgs : Nat)
    (NumericalDiffMultiArg : List Stmt) (args outputArgs : List Expr)
    (name : StringRef) (ctr : IdCtr)
    (hid : CreateUniqueIdentifier fuel visible m_idCtr defaultBase = some (name, ctr))
    (hargs : numArgs ≤ args.length) (hout : numArgs ≤ outputArgs.length) :
    ∃ r, GetMultiArgCentralDiffCall fuel defaultBase shouldPrintNumDiffErrs
          findOverloadedDefinition visible m_idCtr targetFuncCall retType numArgs
          NumericalDiffMultiArg args outputArgs = some r ∧
      r.NumericalDiffMultiArg = NumericalDiffMultiArg ++
        [Stmt.DeclStmt ⟨name, GetCladTapeOfType (GetCladArrayRefOfType retType),
          some (.InitListExpr [])⟩] ++
        (outputArgs.take numArgs).map
          (fun out => Stmt.ofExpr (.CallExpr PushDRE [.DeclRefExpr name, out])) ∧
      r.NumericalDiffMultiArg.length = NumericalDiffMultiArg.length + 1 + numArgs ∧
      r.call = findOverloadedDefinition (centralDifferenceName,
        [targetFuncCall, .DeclRefExpr name,
          .IntegerLiteral (if shouldPrintNumDiffErrs then 1 else 0)] ++ args.take numArgs) ∧
      r.queries = [(centralDifferenceName,
        [targetFuncCall, .DeclRefExpr name,
          .IntegerLiteral (if shouldPrintNumDiffErrs then 1 else 0)] ++ args.take numArgs)] ∧
      r.visible = name :: visible ∧ r.m_idCtr = ctr ∧
      String.mk centralDifferenceName = "central_difference" := by
  have hloop := pushLoop_spec (.DeclRefExpr name) args outputArgs numArgs 0
    (NumericalDiffMultiArg ++
      [Stmt.DeclStmt ⟨name, GetCladTapeOfType (GetCladArrayRefOfType retType),
        some (.InitListExpr [])⟩])
    [targetFuncCall, .DeclRefExpr name,
      .IntegerLiteral (if shouldPrintNumDiffErrs then 1 else 0)]
    (by omega) (by omega)
  simp only [List.drop_zero] at hloop
  refine ⟨⟨findOverloadedDefinition (centralDifferenceName,
        [targetFuncCall, .DeclRefExpr name,
          .IntegerLiteral (if shouldPrintNumDiffErrs then 1 else 0)] ++ args.take numArgs),
      NumericalDiffMultiArg ++
        [Stmt.DeclStmt ⟨name, GetCladTapeOfType (GetCladArrayRefOfType retType),
          some (.InitListExpr [])⟩] ++
        (outputArgs.take numArgs).map
          (fun out => Stmt.ofExpr (.CallExpr PushDRE [.DeclRefExpr name, out])),
      name :: visible, ctr,
      [(centralDifferenceName,
        [targetFuncCall, .DeclRefExpr name,
          .IntegerLiteral (if shouldPrintNumDiffErrs then 1 else 0)] ++ args.take numArgs)]⟩,
    ?_, rfl, ?_, rfl, rfl, rfl, rfl, by decide⟩
  · simp only [GetMultiArgCentralDiffCall, BuildVarDeclUnique, hid, BuildVarDecl,
      PushOnScopeChains, BuildDeclRef, getZeroInit, GetCladTapeOfType, GetCladClassOfType,
      QualType.isScalarType, synthesizeLiteral, List.singleton_append, List.cons_append,
      List.nil_append, Bool.false_eq_true, if_false]
    simp only [GetCladTapeOfType, GetCladClassOfType, List.cons_append, List.nil_append]
      at hloop
    rw [hloop]
  · simp only [List.length_append, List.length_map, List.length_take, List.length_cons,
      List.length_nil, Nat.min_eq_left hout]

/-- C15, amended: for a scope with fewer than `2^64` visible names (as is the
counter of the prefix) and vectors that hold at least `numArgs` elements,
`GetMultiArgCentralDiffCall` returns, and the same whenever the identifier
loop is allowed more rounds than there are visible names: the tape variable
gets a name that is not visible, and the function appends to the statement
list, in this order, the declaration of the tape with its zero initializer and
one push per argument, the `i`-th pushing `outputArgs[i]` onto the tape, and
nothing else; the value returned is the resolver's answer for
`central_difference` and the arguments `targetFuncCall`, the tape, the
literal of the print-error setting, `args[0]`, ..., `args[numArgs-1]`. -/
theorem GetMultiArgCentralDiffCall_spec (defaultBase : StringRef)
    (shouldPrintNumDiffErrs : Bool) (findOverloadedDefinition : OverloadQuery → Option Expr)
    (visible : List StringRef) (m_idCtr : IdCtr)
    (targetFuncCall : Expr) (retType : QualType) (numArgs : Nat)
    (NumericalDiffMultiArg : List Stmt) (args outputArgs : List Expr)
    (hlen : visible.length < 2 ^ 64) (hctr : m_idCtr defaultBase < 2 ^ 64)
    (hargs : numArgs ≤ args.length) (hout : numArgs ≤ outputArgs.length) :
    ∃ name ctr r, name ∉ visible ∧
      (∀ fuel, visible.length < fuel →
        CreateUniqueIdentifier fuel visible m_idCtr defaultBase = some (name, ctr) ∧
        GetMultiArgCentralDiffCall fuel defaultBase shouldPrintNumDiffErrs
          findOverloadedDefinition visible m_idCtr targetFuncCall retType numArgs
          NumericalDiffMultiArg args outputArgs = some r) ∧
      r.NumericalDiffMultiArg = NumericalDiffMultiArg ++
        [Stmt.DeclStmt ⟨name, GetCladTapeOfType (GetCladArrayRefOfType retType),
          some (.InitListExpr [])⟩] ++
        (outputArgs.take numArgs).map
          (fun out => Stmt.ofExpr (.CallExpr PushDRE [.DeclRefExpr name, out])) ∧
      r.NumericalDiffMultiArg.length = NumericalDiffMultiArg.length + 1 + numArgs ∧
      r.call = findOverloadedDefinition (centralDifferenceName,
        [targetFuncCall, .DeclRefExpr name,
          .IntegerLiteral (if shouldPrintNumDiffErrs then 1 else 0)] ++ args.take numArgs) ∧
      r.queries = [(centralDifferenceName,
        [targetFuncCall, .DeclRefExpr name,
          .IntegerLiteral (if shouldPrintNumDiffErrs then 1 else 0)] ++ args.take numArgs)] ∧
      r.visible = name :: visible ∧ r.m_idCtr = ctr ∧
      String.mk centralDifferenceName = "central_difference" := by
  obtain ⟨name, ctr, hid, hfree⟩ :=
    CreateUniqueIdentifier_total visible m_idCtr defaultBase hlen hctr
  obtain ⟨r, hr, h1, h2, h3, h4, h5, h6, h7⟩ :=
    GetMultiArgCentralDiffCall_of_identifier (visible.length + 1) defaultBase
      shouldPrintNumDiffErrs findOverloadedDefinition visible m_idCtr targetFuncCall retType
      numArgs NumericalDiffMultiArg args outputArgs name ctr
      (hid _ (Nat.lt_succ_self _)) hargs hout
  refine ⟨name, ctr, r, hfree, ?_, h1, h2, h3, h4, h5, h6, h7⟩
  intro fuel hfuel
  refine ⟨hid fuel hfuel, ?_⟩
  obtain ⟨r2, hr2, g1, -, g3, g4, g5, g6, -⟩ :=
    GetMultiArgCentralDiffCall_of_identifier fuel defaultBase
      shouldPrintNumDiffErrs findOverloadedDefinition visible m_idCtr targetFuncCall retType
      numArgs NumericalDiffMultiArg args outputArgs name ctr (hid fuel hfuel) hargs hout
  rw [hr2]
  congr 1
  cases r
  cases r2
  simp only at h1 h3 h4 h5 h6 g1 g3 g4 g5 g6
  simp only [MultiArgResult.mk.injEq]
  exact ⟨g3.trans h3.symm, g1.trans h1.symm, g5.trans h5.symm, g6.trans h6.symm,
    g4.trans h4.symm⟩

/-- C15 amended, for the call `f(x, y)` with the output slots `dx` and `dy`,
in a scope where `_t0` and `x` are visible: the tape is `_t1`. -/
theorem GetMultiArgCentralDiffCall_spec_witness :
    (GetMultiArgCentralDiffCall 3 ['_', 't'] false
        (fun q => some (.CallExpr (.DeclRefExpr q.1) q.2)) [['_', 't', '0'], ['x']] (fun _ => 0)
        (.CallExpr (.DeclRefExpr ['f']) [.DeclRefExpr ['x'], .DeclRefExpr ['y']])
        (.program ['d', 'o', 'u', 'b', 'l', 'e'] true true) 2 []
        [.DeclRefExpr ['x'], .DeclRefExpr ['y']]
        [.DeclRefExpr ['d', 'x'], .DeclRefExpr ['d', 'y']]).map
      (fun r => (r.NumericalDiffMultiArg, r.call, r.visible))
    = some
      ([Stmt.DeclStmt ⟨['_', 't', '1'],
          GetCladTapeOfType (GetCladArrayRefOfType
            (.program ['d', 'o', 'u', 'b', 'l', 'e'] true true)),
          some (.InitListExpr [])⟩,
        Stmt.ofExpr (.CallExpr PushDRE [.DeclRefExpr ['_', 't', '1'], .DeclRefExpr ['d', 'x']]),
        Stmt.ofExpr (.CallExpr PushDRE [.DeclRefExpr ['_', 't', '1'], .DeclRefExpr ['d', 'y']])],
      some (.CallExpr (.DeclRefExpr centralDifferenceName)
        [.CallExpr (.DeclRefExpr ['f']) [.DeclRefExpr ['x'], .DeclRefExpr ['y']],
          .DeclRefExpr ['_', 't', '1'], .IntegerLiteral 0,
          .DeclRefExpr ['x'], .DeclRefExpr ['y']]),
      [['_', 't', '1'], ['_', 't', '0'], ['x']]) ∧
    ∃ name ctr r, name ∉ [['_', 't', '0'], ['x']] ∧
      (∀ fuel, [['_', 't', '0'], ['x']].length < fuel →
        CreateUniqueIdentifier fuel [['_', 't', '0'], ['x']] (fun _ => 0) ['_', 't']
          = some (name, ctr) ∧
        GetMultiArgCentralDiffCall fuel ['_', 't'] false
          (fun q => some (.CallExpr (.DeclRefExpr q.1) q.2)) [['_', 't', '0'], ['x']]
          (fun _ => 0)
          (.CallExpr (.DeclRefExpr ['f']) [.DeclRefExpr ['x'], .DeclRefExpr ['y']])
          (.program ['d', 'o', 'u', 'b', 'l', 'e'] true true) 2 []
          [.DeclRefExpr ['x'], .DeclRefExpr ['y']]
          [.DeclRefExpr ['d', 'x'], .DeclRefExpr ['d', 'y']] = some r) ∧
      r.NumericalDiffMultiArg = [] ++
        [Stmt.DeclStmt ⟨name,
          GetCladTapeOfType (GetCladArrayRefOfType
            (.program ['d', 'o', 'u', 'b', 'l', 'e'] true true)),
          some (.InitListExpr [])⟩] ++
        ([Expr.DeclRefExpr ['d', 'x'], Expr.DeclRefExpr ['d', 'y']].take 2).map
          (fun out => Stmt.ofExpr (.CallExpr PushDRE [.DeclRefExpr name, out])) ∧
      r.NumericalDiffMultiArg.length = ([] : List Stmt).length + 1 + 2 ∧
      r.call = (fun q => some (Expr.CallExpr (.DeclRefExpr q.1) q.2)) (centralDifferenceName,
        [.CallExpr (.DeclRefExpr ['f']) [.DeclRefExpr ['x'], .DeclRefExpr ['y']],
          .DeclRefExpr name,
          .IntegerLiteral (if false then 1 else 0)] ++
          [Expr.DeclRefExpr ['x'], Expr.DeclRefExpr ['y']].take 2) ∧
      r.queries = [(centralDifferenceName,
        [.CallExpr (.DeclRefExpr ['f']) [.DeclRefExpr ['x'], .DeclRefExpr ['y']],
          .DeclRefExpr name,
          .IntegerLiteral (if false then 1 else 0)] ++
          [Expr.DeclRefExpr ['x'], Expr.DeclRefExpr ['y']].take 2)] ∧
      r.visible = name :: [['_', 't', '0'], ['x']] ∧
      r.m_idCtr = ctr ∧
      String.mk centralDifferenceName = "central_difference" :=
  ⟨rfl,
    GetMultiArgCentralDiffCall_spec ['_', 't'] false
      (fun q => some (.CallExpr (.DeclRefExpr q.1) q.2)) [['_', 't', '0'], ['x']] (fun _ => 0)
      (.CallExpr (.DeclRefExpr ['f']) [.DeclRefExpr ['x'], .DeclRefExpr ['y']])
      (.program ['d', 'o', 'u', 'b', 'l', 'e'] true true) 2 []
      [.DeclRefExpr ['x'], .DeclRefExpr ['y']]
      [.DeclRefExpr ['d', 'x'], .DeclRefExpr ['d', 'y']]
      (by decide) (by decide) (by decide) (by decide)⟩

end clad
